import Mathlib

/-!
Verification of the logEditor cross-document search service
(src/main/search-service.ts): the match scanner, the search engine,
the result cache and its lifecycle, shallowly embedded over lists of
characters, with the host regular-expression engine abstracted as a
compile function that either fails (invalid pattern) or yields a
leftmost-match stepping function.
-/

set_option linter.unusedVariables false

/-- Text as the service manipulates JS strings: a list of characters. -/
abbrev Text := List Char

/-- JS String.prototype.trim, as used by normalizeRequest. -/
def trimText (s : Text) : Text :=
  ((s.dropWhile Char.isWhitespace).reverse.dropWhile Char.isWhitespace).reverse

/-- JS String.prototype.toLowerCase, per-character case folding. -/
def lowerText (s : Text) : Text := s.map Char.toLower

/-- The needle occurs in the haystack starting at 0-based position i. -/
def occursAt (needle haystack : Text) (i : Nat) : Bool :=
  decide (i + needle.length ≤ haystack.length) &&
    ((haystack.drop i).take needle.length == needle)

/-- JS haystack.indexOf(needle, fromIndex): the least position at or after
fromIndex where the needle occurs, none standing for -1; for the empty
needle JS answers min(fromIndex, length). -/
def indexOfFrom (haystack needle : Text) (fromIndex : Nat) : Option Nat :=
  if needle.isEmpty then some (min fromIndex haystack.length)
  else
    ((List.range (haystack.length + 1)).filter
      (fun i => decide (fromIndex ≤ i) && occursAt needle haystack i)).head?

/-- JS haystack.includes(needle). -/
def includesText (haystack needle : Text) : Bool :=
  (indexOfFrom haystack needle 0).isSome

/-- Splitting on the pattern (carriage return?, newline): an optional
carriage return directly before a newline is consumed with it, a lone
carriage return stays in the line. The accumulator holds the current
line reversed. -/
def splitLinesAux : Text → Text → List Text
  | [], acc => [acc.reverse]
  | '\r' :: '\n' :: rest, acc => acc.reverse :: splitLinesAux rest []
  | '\n' :: rest, acc => acc.reverse :: splitLinesAux rest []
  | c :: rest, acc => splitLinesAux rest (c :: acc)

/-- content.split on (carriage return?, newline), as findMatches does. -/
def splitLines (content : Text) : List Text := splitLinesAux content []

/-- The behaviour of a compiled JS RegExp carrying the global flag: from a
line and the current lastIndex, the leftmost match at or after it as
(index, length), or none when there is no further match. -/
def ExecFn : Type := Text → Nat → Option (Nat × Nat)

/-- The bounds any real regex engine guarantees: a reported match starts no
earlier than the search position and ends within the line. -/
def ExecWF (f : ExecFn) : Prop :=
  ∀ l s i n, f l s = some (i, n) → s ≤ i ∧ i + n ≤ l.length

/-- The RegExp constructor: a pattern and the ignore-case flag give a
stepping function, or none when the pattern does not compile (the
constructor throws). -/
def CompileFn : Type := Text → Bool → Option ExecFn

/-- Every stepping function the constructor yields is well formed. -/
def CompileWF (compile : CompileFn) : Prop :=
  ∀ p ci f, compile p ci = some f → ExecWF f

/-- SearchableTab: one buffer snapshot as synced by the renderer. -/
structure SearchableTab where
  id : String
  title : String
  filePath : Option String
  content : Text
  deriving DecidableEq

/-- The scope union of a request: the whole workspace, or a prior search. -/
inductive SearchScope where
  | workspace : SearchScope
  | search (searchId : String) : SearchScope
  deriving DecidableEq

/-- SearchRequest as submitted; optional fields are options. -/
structure SearchRequest where
  query : Text
  isRegex : Bool
  matchCase : Bool
  excludeQuery : Option Text
  scope : Option SearchScope
  dedupeLines : Option Bool
  deriving DecidableEq

/-- SearchMatch: one located occurrence; matched is the matched substring,
preview the whole line it was found on. -/
structure SearchMatch where
  line : Nat
  column : Nat
  matched : Text
  preview : Text
  deriving DecidableEq

/-- SearchResponseItem: the matches of one buffer. -/
structure SearchResponseItem where
  tabId : String
  title : String
  filePath : Option String
  matches' : List SearchMatch
  deriving DecidableEq

/-- SearchResponsePayload: the response, stored verbatim in the cache. -/
structure SearchResponsePayload where
  searchId : String
  parentSearchId : Option String
  request : SearchRequest
  results : List SearchResponseItem
  deriving DecidableEq

/-- FindMatchOptions handed from the engine down to the scanner. -/
structure FindMatchOptions where
  query : Text
  isRegex : Bool
  matchCase : Bool
  matcher : Option ExecFn
  excludeQuery : Option Text
  excludeMatcher : Option ExecFn

/-- shouldExcludeLine of findMatches: in regex mode a fresh tester built
from the exclude matcher's pattern runs over the line (the stepping
function is stateless here, so the fresh instance is the function
itself); in literal mode a case-respecting containment check. An empty
or missing excludeQuery excludes nothing, and in regex mode without a
compiled exclude matcher the literal needle is undefined, so nothing is
excluded either. -/
def shouldExcludeLine (options : FindMatchOptions) (lineText : Text) : Bool :=
  match options.excludeQuery with
  | none => false
  | some eq =>
    if eq.isEmpty then false
    else if options.isRegex then
      match options.excludeMatcher with
      | some tester => (tester lineText 0).isSome
      | none => false
    else
      let haystack := if options.matchCase then lineText else lowerText lineText
      let needle := if options.matchCase then eq else lowerText eq
      includesText haystack needle

/-- The literal scan loop of findMatches: repeated indexOf starting at
fromIndex, advancing past each hit by max(needle length, 1); the list of
hit positions, in scan order. -/
def litScan (haystack needle : Text) (fromIndex : Nat) : List Nat :=
  if hin : fromIndex ≤ haystack.length then
    match hhit : indexOfFrom haystack needle fromIndex with
    | none => []
    | some hit => hit :: litScan haystack needle (hit + max needle.length 1)
  else []
termination_by haystack.length + 1 - fromIndex
decreasing_by
  have hb : fromIndex ≤ hit ∧ hit ≤ haystack.length := by
    unfold indexOfFrom at hhit
    by_cases hne : needle.isEmpty
    · simp [hne] at hhit
      omega
    · simp only [hne, if_false] at hhit
      have hmem := List.mem_of_mem_head? hhit
      rcases List.mem_filter.mp hmem with ⟨hrange, hcond⟩
      have hir : hit < haystack.length + 1 := List.mem_range.mp hrange
      have hc := Bool.and_eq_true_iff.mp hcond
      exact ⟨of_decide_eq_true hc.1, by omega⟩
  have h1 : 1 ≤ max needle.length 1 := Nat.le_max_right _ _
  omega

/-- The regex scan loop of findMatches over one line, fuel-indexed: the
engine advances lastIndex to the end of each match and the loop bumps it
once more after a zero-length match; none means the fuel ran out. -/
def regexScan (exec : ExecFn) (lineText : Text) : Nat → Nat → Option (List (Nat × Nat))
  | _, 0 => none
  | pos, fuel + 1 =>
    match exec lineText pos with
    | none => some []
    | some (i, n) =>
      (regexScan exec lineText (i + n + (if n == 0 then 1 else 0)) fuel).map
        (fun rest => (i, n) :: rest)

/-- One iteration of the lines.forEach body of findMatches, for the line at
the given 0-based index: the degenerate empty-line-empty-query guard, the
exclusion test, then the regex or literal scan of that line. -/
def lineMatches (options : FindMatchOptions) (index : Nat) (lineText : Text) :
    List SearchMatch :=
  if lineText.length == 0 && options.query.length == 0 then []
  else if shouldExcludeLine options lineText then []
  else
    match options.isRegex, options.matcher with
    | true, some exec =>
      match regexScan exec lineText 0 (lineText.length + 2) with
      | some hits =>
        hits.map (fun h =>
          { line := index + 1, column := h.1 + 1,
            matched := (lineText.drop h.1).take h.2, preview := lineText })
      | none => []
    | _, _ =>
      let haystack := if options.matchCase then lineText else lowerText lineText
      let needle := if options.matchCase then options.query else lowerText options.query
      (litScan haystack needle 0).map (fun hit =>
        { line := index + 1, column := hit + 1,
          matched := (lineText.drop hit).take options.query.length, preview := lineText })

/-- findMatches: split the content into lines and scan each line. -/
def findMatches (content : Text) (options : FindMatchOptions) : List SearchMatch :=
  (splitLines content).enum.flatMap (fun p => lineMatches options p.1 p.2)

/-- One decimal digit as a character. -/
def digitChar : Nat → Char
  | 0 => '0'
  | 1 => '1'
  | 2 => '2'
  | 3 => '3'
  | 4 => '4'
  | 5 => '5'
  | 6 => '6'
  | 7 => '7'
  | 8 => '8'
  | _ => '9'

/-- The decimal digits of a number, as JS template interpolation renders it. -/
def natDigits (n : Nat) : Text :=
  if n < 10 then [digitChar n]
  else natDigits (n / 10) ++ [digitChar (n % 10)]
termination_by n
decreasing_by exact Nat.div_lt_self (by omega) (by omega)

/-- The processedLines key of filterSearchResults: line, two colons, preview. -/
def dedupeKey (line : Nat) (preview : Text) : Text :=
  natDigits line ++ ':' :: ':' :: preview

/-- The item.matches'.forEach body of filterSearchResults, with the
processedLines set threaded through as the list of keys already seen:
a match whose key was seen is skipped, otherwise its preview is rescanned
and every nested hit is recorded under the original line number and
preview with the nested column and matched text. -/
def aggregateAux (options : FindMatchOptions) :
    List SearchMatch → List Text → List SearchMatch
  | [], _ => []
  | m :: rest, processed =>
    let key := dedupeKey m.line m.preview
    if processed.contains key then aggregateAux options rest processed
    else
      ((findMatches m.preview options).map (fun nested =>
        { line := m.line, column := nested.column,
          matched := nested.matched, preview := m.preview })) ++
        aggregateAux options rest (key :: processed)

/-- filterSearchResults: an empty query yields nothing; otherwise each base
item's matches are rescanned (deduplicated by line and preview) and items
with no nested hits are dropped. -/
def filterSearchResults (baseResults : List SearchResponseItem)
    (options : FindMatchOptions) : List SearchResponseItem :=
  if options.query.length == 0 then []
  else
    baseResults.filterMap (fun item =>
      let aggregated := aggregateAux options item.matches' []
      if aggregated.length == 0 then none
      else some { item with matches' := aggregated })

/-- An insertion-ordered map as a JS Map: lookup by key. -/
def mapGet {α : Type} (m : List (String × α)) (k : String) : Option α :=
  (m.find? (fun kv => kv.1 == k)).map (fun kv => kv.2)

/-- JS Map.set: replace in place when the key exists, else append. -/
def mapSet {α : Type} (m : List (String × α)) (k : String) (v : α) :
    List (String × α) :=
  if m.any (fun kv => kv.1 == k) then
    m.map (fun kv => if kv.1 == k then (k, v) else kv)
  else m ++ [(k, v)]

/-- JS Map.delete. -/
def mapDelete {α : Type} (m : List (String × α)) (k : String) :
    List (String × α) :=
  m.filter (fun kv => kv.1 != k)

/-- The two stores closed over by createSearchService. -/
structure ServiceState where
  tabStore : List (String × SearchableTab)
  searchResultsStore : List (String × SearchResponsePayload)
  deriving DecidableEq

/-- The stores start empty. -/
def initialState : ServiceState := { tabStore := [], searchResultsStore := [] }

/-- normalizeRequest: trim the queries, drop an empty exclude query,
default the scope to workspace and dedupeLines to true. -/
def normalizeRequest (request : SearchRequest) : SearchRequest :=
  let trimmedQuery := trimText request.query
  let trimmedExclude := trimText (request.excludeQuery.getD [])
  { request with
    query := trimmedQuery
    scope := some (request.scope.getD SearchScope.workspace)
    excludeQuery := if trimmedExclude.length != 0 then some trimmedExclude else none
    dedupeLines := some (request.dedupeLines.getD true) }

/-- A RegExp constructor throw, tagged by which construction threw: the
main query's (first) or the exclude query's (second). -/
inductive PatternError where
  | mainInvalid (pattern : Text) : PatternError
  | excludeInvalid (pattern : Text) : PatternError
  deriving DecidableEq

/-- The first half of buildMatchers: the main matcher is compiled when the
query is non-empty and regex mode is on; the flags are g or gi, so the
ignore-case flag is the negated matchCase. A constructor throw aborts
the whole request. -/
def buildMainMatcher (compile : CompileFn) (request : SearchRequest) :
    Except PatternError (Option ExecFn) :=
  if request.query.length != 0 && request.isRegex then
    match compile request.query (!request.matchCase) with
    | some f => Except.ok (some f)
    | none => Except.error (PatternError.mainInvalid request.query)
  else Except.ok none

/-- buildMatchers: the main matcher first (its throw propagates), then the
exclude matcher when an exclude query is present, non-empty and regex
mode is on. -/
def buildMatchers (compile : CompileFn) (request : SearchRequest) :
    Except PatternError (Option ExecFn × Option ExecFn) :=
  match buildMainMatcher compile request with
  | Except.error e => Except.error e
  | Except.ok matcher =>
    match request.excludeQuery with
    | some eq =>
      if eq.length != 0 && request.isRegex then
        match compile eq (!request.matchCase) with
        | some f => Except.ok (matcher, some f)
        | none => Except.error (PatternError.excludeInvalid eq)
      else Except.ok (matcher, none)
    | none => Except.ok (matcher, none)

/-- The FindMatchOptions record performSearch passes to the scanner. -/
def mkFindOptions (request : SearchRequest) (matcher excludeMatcher : Option ExecFn) :
    FindMatchOptions :=
  { query := request.query, isRegex := request.isRegex,
    matchCase := request.matchCase, matcher := matcher,
    excludeQuery := request.excludeQuery, excludeMatcher := excludeMatcher }

/-- The candidate resolution and scanning of performSearch: an empty
normalized query short-circuits to no results; a search scope rescans
the cached base response, an absent base yielding no results; a
workspace scope scans every tab, keeping buffers with at least one
match. -/
def candidateResults (state : ServiceState) (request : SearchRequest)
    (findOptions : FindMatchOptions) : List SearchResponseItem :=
  if request.query.length == 0 then []
  else
    match request.scope with
    | some (SearchScope.search searchId) =>
      match mapGet state.searchResultsStore searchId with
      | some base => filterSearchResults base.results findOptions
      | none => []
    | _ =>
      (state.tabStore.map (fun kv => kv.2)).filterMap (fun tab =>
        let ms := findMatches tab.content findOptions
        if ms.length == 0 then none
        else some { tabId := tab.id, title := tab.title,
                    filePath := tab.filePath, matches' := ms })

/-- The payload performSearch assembles: the fresh id, the parent id when
the scope is a search, the normalized request echoed back, the results. -/
def payloadFor (genId : String) (request : SearchRequest)
    (results : List SearchResponseItem) : SearchResponsePayload :=
  { searchId := genId
    parentSearchId :=
      match request.scope with
      | some (SearchScope.search searchId) => some searchId
      | _ => none
    request := request
    results := results }

/-- performSearch: normalize, build matchers (a throw propagates before
anything is stored), resolve candidates by scope, assemble the payload
under the freshly generated id and store it. The generated id is passed
in explicitly, standing for the generateId closure. -/
def performSearch (compile : CompileFn) (genId : String) (state : ServiceState)
    (rawRequest : SearchRequest) :
    Except PatternError (SearchResponsePayload × ServiceState) :=
  match buildMatchers compile (normalizeRequest rawRequest) with
  | Except.error e => Except.error e
  | Except.ok mm =>
    let request := normalizeRequest rawRequest
    let findOptions := mkFindOptions request mm.1 mm.2
    let payload := payloadFor genId request (candidateResults state request findOptions)
    Except.ok (payload, { state with
      searchResultsStore := mapSet state.searchResultsStore genId payload })

/-- The state a caller holds after a performSearch call: a throw happens
before the store mutation, so the state is unchanged on error. -/
def runPerformSearch (compile : CompileFn) (genId : String) (state : ServiceState)
    (rawRequest : SearchRequest) : ServiceState :=
  match performSearch compile genId state rawRequest with
  | Except.ok (_, s2) => s2
  | Except.error _ => state

/-- syncTabState: upsert the snapshot under its id. -/
def syncTabState (state : ServiceState) (tab : SearchableTab) : ServiceState :=
  { state with tabStore := mapSet state.tabStore tab.id tab }

/-- removeTabState. -/
def removeTabState (state : ServiceState) (tabId : String) : ServiceState :=
  { state with tabStore := mapDelete state.tabStore tabId }

/-- disposeSearchResults: drop the one cached response. -/
def disposeSearchResults (state : ServiceState) (searchId : String) : ServiceState :=
  { state with searchResultsStore := mapDelete state.searchResultsStore searchId }

/-- updateTabContentByFilePath: replace the content of the first tab whose
file path matches; an empty path or no match changes nothing. -/
def updateTabContentByFilePath (state : ServiceState) (filePath : String)
    (content : Text) : ServiceState :=
  if filePath == "" then state
  else
    match (state.tabStore.map (fun kv => kv.2)).find?
        (fun tab => tab.filePath == some filePath) with
    | some existing =>
      let updated : SearchableTab := { existing with content := content }
      { state with tabStore := mapSet state.tabStore existing.id updated }
    | none => state

/-- The states one service instance can reach from start by the exposed
operations (an erroring performSearch leaves the state as it was, so only
successful calls step). -/
inductive Reachable (compile : CompileFn) : ServiceState → Prop where
  | init : Reachable compile initialState
  | perform {s : ServiceState} {genId : String} {req : SearchRequest}
      {payload : SearchResponsePayload} {s2 : ServiceState} :
      Reachable compile s →
      performSearch compile genId s req = Except.ok (payload, s2) →
      Reachable compile s2
  | sync {s : ServiceState} (tab : SearchableTab) :
      Reachable compile s → Reachable compile (syncTabState s tab)
  | remove {s : ServiceState} (tabId : String) :
      Reachable compile s → Reachable compile (removeTabState s tabId)
  | dispose {s : ServiceState} (searchId : String) :
      Reachable compile s → Reachable compile (disposeSearchResults s searchId)
  | update {s : ServiceState} (filePath : String) (content : Text) :
      Reachable compile s → Reachable compile (updateTabContentByFilePath s filePath content)

/-- The length of the run of letters a at a position. -/
def aStarLen (lineText : Text) (pos : Nat) : Nat :=
  ((lineText.drop pos).takeWhile (fun c => c == 'a')).length

/-- The stepping function of the pattern a followed by a star: at every
in-range position it matches the (possibly empty) greedy run of letters
a starting right there. -/
def aStarExec : ExecFn := fun lineText pos =>
  if pos ≤ lineText.length then some (pos, aStarLen lineText pos) else none

/-- Modelled from the spec: the host RegExp engine is outside the
repository, so a miniature stand-in is used for concrete runs — a lone
opening parenthesis fails to compile (the invalid-pattern failure mode the
spec requires), the pattern a-star compiles to its greedy stepping
function, and any other pattern compiles to a function with no matches. -/
def modelCompile : CompileFn := fun pattern _ci =>
  if pattern == ['('] then none
  else if pattern == ['a', '*'] then some aStarExec
  else some (fun _ _ => none)

/-- p is the first occurrence of the needle in the line at or after f. -/
def IsNextOcc (needle line : Text) (f p : Nat) : Prop :=
  f ≤ p ∧ occursAt needle line p = true ∧
    ∀ q, f ≤ q → q < p → occursAt needle line q = false

/-- The positions a greedy left-to-right literal scan starting at f
selects: the first occurrence at or after f, and after a selected
position p the first occurrence at or after p + max(needle length, 1). -/
inductive SelectedOcc (needle line : Text) (f : Nat) : Nat → Prop where
  | head {p : Nat} : IsNextOcc needle line f p → SelectedOcc needle line f p
  | chain {p q : Nat} : SelectedOcc needle line f p →
      IsNextOcc needle line (p + max needle.length 1) q →
      SelectedOcc needle line f q

/-- Strict (line, column) lexicographic order on match records. -/
def matchLtLex (a b : SearchMatch) : Prop :=
  a.line < b.line ∨ (a.line = b.line ∧ a.column < b.column)

/-- Matches ordered by ascending line, then ascending column. -/
def SortedMatches (ms : List SearchMatch) : Prop := List.Pairwise matchLtLex ms

/-- A text the line splitter returns unchanged: a single line. -/
def SingleLineText (p : Text) : Prop := splitLines p = [p]

/-- What holds of every per-buffer item the scanner or the refiner
produces: ordered matches, single-line previews, one preview per line. -/
def ItemInv (item : SearchResponseItem) : Prop :=
  SortedMatches item.matches' ∧
  (∀ m ∈ item.matches', SingleLineText m.preview) ∧
  (∀ m ∈ item.matches', ∀ m2 ∈ item.matches', m.line = m2.line → m.preview = m2.preview)

/-- Every item of a response is well formed. -/
def ResponseInv (r : SearchResponsePayload) : Prop :=
  ∀ item ∈ r.results, ItemInv item

/-- Every cached response is well formed. -/
def CacheInv (s : ServiceState) : Prop :=
  ∀ id r, mapGet s.searchResultsStore id = some r → ResponseInv r

/-- The main matcher handed to the scanner, when present, is well formed. -/
def OptionsWF (o : FindMatchOptions) : Prop :=
  ∀ f, o.matcher = some f → ExecWF f

/-- The nested matches one parent match contributes on a rescan. -/
def expandMatch (options : FindMatchOptions) (m : SearchMatch) : List SearchMatch :=
  (findMatches m.preview options).map (fun nested =>
    { line := m.line, column := nested.column,
      matched := nested.matched, preview := m.preview })

/-- The parent matches that actually get rescanned: the first match of
each not-yet-seen dedupe key, in order. -/
def dedupeScan : List SearchMatch → List Text → List SearchMatch
  | [], _ => []
  | m :: rest, seen =>
    let key := dedupeKey m.line m.preview
    if seen.contains key then dedupeScan rest seen
    else m :: dedupeScan rest (key :: seen)

/-- The decimal value of a digit character. -/
def digitVal (c : Char) : Nat := c.toNat - 48

/-- The number a digit string denotes, most significant digit first. -/
def digitsVal (ds : Text) : Nat :=
  ds.foldl (fun acc c => 10 * acc + digitVal c) 0

/-- Every refined item stems from a base item with the same buffer, and
every refined match keeps some parent match's line and preview while its
column and matched text come from rescanning that parent preview. -/
def RefinedFromBase (o : FindMatchOptions) (baseItems : List SearchResponseItem)
    (items : List SearchResponseItem) : Prop :=
  ∀ item ∈ items, ∃ src ∈ baseItems, item.tabId = src.tabId ∧
    ∀ m ∈ item.matches', ∃ pm ∈ src.matches',
      m.line = pm.line ∧ m.preview = pm.preview ∧
      ∃ nested ∈ findMatches pm.preview o,
        m.column = nested.column ∧ m.matched = nested.matched

/-- Literal case-sensitive options with a query and no exclusion, as
performSearch builds them for such a request. -/
def plainOptions (q : Text) : FindMatchOptions :=
  { query := q, isRegex := false, matchCase := true, matcher := none,
    excludeQuery := none, excludeMatcher := none }

/-- The options performSearch builds for the regex request on pattern
a-star with matchCase on, under the model engine. -/
def aStarOptions : FindMatchOptions :=
  { query := ['a', '*'], isRegex := true, matchCase := true,
    matcher := some aStarExec, excludeQuery := none, excludeMatcher := none }

/-- A concrete buffer: two lines, foo on both, bar on the second. -/
def exTab : SearchableTab :=
  { id := "t1", title := "t1", filePath := none,
    content := ['f', 'o', 'o', '\n', 'b', 'a', 'r', ' ', 'f', 'o', 'o'] }

/-- The state with that one buffer synced. -/
def exState : ServiceState := syncTabState initialState exTab

/-- A literal case-sensitive workspace search for foo. -/
def exRequest : SearchRequest :=
  { query := ['f', 'o', 'o'], isRegex := false, matchCase := true,
    excludeQuery := none, scope := none, dedupeLines := none }

/-- The state after that search ran under id s-1. -/
def exState2 : ServiceState := runPerformSearch modelCompile "s-1" exState exRequest

/-- A refinement of search s-1 by the literal query bar. -/
def exRefineRequest : SearchRequest :=
  { query := ['b', 'a', 'r'], isRegex := false, matchCase := true,
    excludeQuery := none, scope := some (SearchScope.search "s-1"), dedupeLines := none }

/-- A literal search for foo excluding lines containing bar. -/
def exExcludeRequest : SearchRequest :=
  { query := ['f', 'o', 'o'], isRegex := false, matchCase := true,
    excludeQuery := some ['b', 'a', 'r'], scope := none, dedupeLines := none }

/-- A regex request whose trimmed query is empty but whose exclude query
is the invalid pattern, a lone opening parenthesis. -/
def exEmptyQueryBadExclude : SearchRequest :=
  { query := [], isRegex := true, matchCase := true,
    excludeQuery := some ['('], scope := none, dedupeLines := none }

/-- A regex request with the invalid main pattern, scoped to a search id
that is in no cache. -/
def exBadMainMissingScope : SearchRequest :=
  { query := ['('], isRegex := true, matchCase := true,
    excludeQuery := none, scope := some (SearchScope.search "gone"), dedupeLines := none }
/-! ### Map algebra -/

theorem mapGet_cons {α : Type} (kv : String × α) (t : List (String × α)) (k : String) :
    mapGet (kv :: t) k = if kv.1 == k then some kv.2 else mapGet t k := by
  cases h : kv.1 == k <;> simp [mapGet, List.find?_cons, h]

theorem mapSet_cons {α : Type} (kv : String × α) (t : List (String × α)) (k : String) (v : α) :
    mapSet (kv :: t) k v =
      if kv.1 == k then
        (k, v) :: t.map (fun p => if p.1 == k then (k, v) else p)
      else kv :: mapSet t k v := by
  cases hk : kv.1 == k with
  | true =>
    have hany : (kv :: t).any (fun p => p.1 == k) = true := by
      simp [List.any_cons, hk]
    have hk1 : kv.1 = k := by simpa using hk
    simp only [mapSet, hany, if_true, List.map_cons, hk, hk1]
    simp
  | false =>
    cases ht : t.any (fun p => p.1 == k) with
    | true =>
      have hany : (kv :: t).any (fun p => p.1 == k) = true := by
        simp only [List.any_cons, ht, Bool.or_true]
      simp only [mapSet, hany, if_true, ht, List.map_cons, hk]
      simp
    | false =>
      have hany : (kv :: t).any (fun p => p.1 == k) = false := by
        simp [List.any_cons, hk, ht]
      simp [mapSet, hany, hk, ht]

theorem mapGet_mapSet_self {α : Type} (m : List (String × α)) (k : String) (v : α) :
    mapGet (mapSet m k v) k = some v := by
  induction m with
  | nil => simp [mapSet, mapGet]
  | cons kv t ih =>
    rw [mapSet_cons]
    by_cases hk : kv.1 == k
    · simp only [hk, if_true]
      simp [mapGet_cons]
    · simp only [hk, Bool.false_eq_true, if_false]
      simp [mapGet_cons, hk, ih]

theorem mapGet_mapSet_other {α : Type} (m : List (String × α)) (k k2 : String) (v : α)
    (h : k2 ≠ k) :
    mapGet (mapSet m k v) k2 = mapGet m k2 := by
  have hkk : (k == k2) = false := by
    simp [BEq.beq]
    exact fun he => h he.symm
  induction m with
  | nil => simp [mapSet, mapGet, List.find?_cons, hkk]
  | cons kv t ih =>
    rw [mapSet_cons]
    by_cases hk : kv.1 == k
    · have hkv2 : (kv.1 == k2) = false := by
        have h1 : kv.1 = k := by simpa using hk
        simpa [h1] using hkk
      simp only [hk, if_true]
      rw [mapGet_cons, mapGet_cons, hkv2]
      simp only [hkk, if_false]
      clear hk hkv2 ih
      induction t with
      | nil => simp
      | cons p t2 ih2 =>
        rw [List.map_cons, mapGet_cons, mapGet_cons]
        by_cases hp : p.1 == k
        · have hp1 : p.1 = k := by simpa using hp
          simp only [hp, if_true]
          simp only [show ((k, v).1 == k2) = false from hkk, if_false]
          simp only [show (p.1 == k2) = false by simpa [hp1] using hkk, if_false]
          exact ih2
        · simp only [hp, if_false]
          cases hq : p.1 == k2 with
          | true => simp [hq]
          | false => simp only [hq, Bool.false_eq_true, if_false]; exact ih2
    · simp only [hk, Bool.false_eq_true, if_false]
      rw [mapGet_cons, mapGet_cons]
      cases hq : kv.1 == k2 with
      | true => simp [hq]
      | false => simp only [hq, Bool.false_eq_true, if_false]; exact ih

theorem mapGet_mapDelete_self {α : Type} (m : List (String × α)) (k : String) :
    mapGet (mapDelete m k) k = none := by
  induction m with
  | nil => rfl
  | cons kv t ih =>
    by_cases hk : kv.1 == k
    · have h1 : kv.1 = k := by simpa using hk
      simp only [mapDelete, List.filter_cons, h1, bne_self_eq_false, Bool.false_eq_true,
        if_false]
      simpa [mapDelete] using ih
    · have hne : (kv.1 != k) = true := by simpa using hk
      simp only [mapDelete, List.filter_cons, hne, if_true]
      rw [mapGet_cons]
      simp only [hk, Bool.false_eq_true, if_false]
      simpa [mapDelete] using ih

theorem mapGet_mapDelete_other {α : Type} (m : List (String × α)) (k k2 : String)
    (h : k2 ≠ k) :
    mapGet (mapDelete m k) k2 = mapGet m k2 := by
  induction m with
  | nil => rfl
  | cons kv t ih =>
    by_cases hk : kv.1 == k
    · have h1 : kv.1 = k := by simpa using hk
      have hkv2 : (kv.1 == k2) = false := by
        simp only [h1]
        simp [BEq.beq]
        exact fun he => h he.symm
      simp only [mapDelete, List.filter_cons, h1, bne_self_eq_false, Bool.false_eq_true,
        if_false]
      rw [mapGet_cons, hkv2]
      simp only [Bool.false_eq_true, if_false]
      simpa [mapDelete] using ih
    · have hne : (kv.1 != k) = true := by simpa using hk
      simp only [mapDelete, List.filter_cons, hne, if_true]
      rw [mapGet_cons, mapGet_cons]
      cases hq : kv.1 == k2 with
      | true => simp [hq]
      | false =>
        simp only [hq, Bool.false_eq_true, if_false]
        simpa [mapDelete] using ih

/-! ### performSearch unfolding -/

theorem performSearch_eq_error {compile : CompileFn} (genId : String)
    (state : ServiceState) {raw : SearchRequest} {e : PatternError}
    (h : buildMatchers compile (normalizeRequest raw) = Except.error e) :
    performSearch compile genId state raw = Except.error e := by
  unfold performSearch
  rw [h]

theorem performSearch_eq_ok {compile : CompileFn} (genId : String)
    (state : ServiceState) {raw : SearchRequest} {mm : Option ExecFn × Option ExecFn}
    (h : buildMatchers compile (normalizeRequest raw) = Except.ok mm) :
    performSearch compile genId state raw =
      Except.ok
        (payloadFor genId (normalizeRequest raw)
          (candidateResults state (normalizeRequest raw)
            (mkFindOptions (normalizeRequest raw) mm.1 mm.2)),
         ServiceState.mk state.tabStore
           (mapSet state.searchResultsStore genId
             (payloadFor genId (normalizeRequest raw)
               (candidateResults state (normalizeRequest raw)
                 (mkFindOptions (normalizeRequest raw) mm.1 mm.2))))) := by
  unfold performSearch
  rw [h]

theorem performSearch_ok_inv {compile : CompileFn} {genId : String}
    {state : ServiceState} {raw : SearchRequest} {payload : SearchResponsePayload}
    {s2 : ServiceState}
    (h : performSearch compile genId state raw = Except.ok (payload, s2)) :
    payload.searchId = genId ∧
    payload.request = normalizeRequest raw ∧
    s2.tabStore = state.tabStore ∧
    s2.searchResultsStore = mapSet state.searchResultsStore genId payload ∧
    ∃ mm, buildMatchers compile (normalizeRequest raw) = Except.ok mm ∧
      payload = payloadFor genId (normalizeRequest raw)
        (candidateResults state (normalizeRequest raw)
          (mkFindOptions (normalizeRequest raw) mm.1 mm.2)) := by
  cases hb : buildMatchers compile (normalizeRequest raw) with
  | error e =>
    rw [performSearch_eq_error genId state hb] at h
    exact absurd h (by simp)
  | ok mm =>
    rw [performSearch_eq_ok genId state hb] at h
    have h2 := h
    injection h2 with h3
    injection h3 with hp hs
    subst hp
    subst hs
    refine ⟨rfl, rfl, rfl, rfl, mm, rfl, rfl⟩

/-! ### buildMatchers characterizations -/

theorem buildMainMatcher_err {compile : CompileFn} {request : SearchRequest}
    (hr : request.isRegex = true) (hq : request.query ≠ [])
    (hc : compile request.query (!request.matchCase) = none) :
    buildMainMatcher compile request =
      Except.error (PatternError.mainInvalid request.query) := by
  have hql : (request.query.length != 0) = true := by
    simp [List.length_eq_zero]
    exact hq
  unfold buildMainMatcher
  rw [hql, hr]
  simp [hc]

theorem buildMainMatcher_ok_empty {compile : CompileFn} {request : SearchRequest}
    (hq : request.query = []) :
    buildMainMatcher compile request = Except.ok none := by
  unfold buildMainMatcher
  simp [hq]

theorem buildMainMatcher_ok_some {compile : CompileFn} {request : SearchRequest} {f : ExecFn}
    (hc : compile request.query (!request.matchCase) = some f) :
    ∃ m, buildMainMatcher compile request = Except.ok m := by
  unfold buildMainMatcher
  by_cases hcase : (request.query.length != 0 && request.isRegex) = true
  · rw [if_pos hcase, hc]
    exact ⟨some f, rfl⟩
  · rw [if_neg hcase]
    exact ⟨none, rfl⟩

theorem buildMatchers_main_err {compile : CompileFn} {request : SearchRequest} {e : PatternError}
    (h : buildMainMatcher compile request = Except.error e) :
    buildMatchers compile request = Except.error e := by
  unfold buildMatchers
  rw [h]

theorem buildMatchers_exclude_err {compile : CompileFn} {request : SearchRequest}
    {m : Option ExecFn} {eq : Text}
    (hm : buildMainMatcher compile request = Except.ok m)
    (he : request.excludeQuery = some eq) (hne : eq ≠ [])
    (hr : request.isRegex = true)
    (hc : compile eq (!request.matchCase) = none) :
    buildMatchers compile request =
      Except.error (PatternError.excludeInvalid eq) := by
  have hql : (eq.length != 0) = true := by
    simp [List.length_eq_zero]
    exact hne
  unfold buildMatchers
  simp only [hm, he, hql, hr, Bool.and_true, if_true]
  simp [hc]

theorem runPerformSearch_of_error {compile : CompileFn} {genId : String}
    {state : ServiceState} {raw : SearchRequest} {e : PatternError}
    (h : performSearch compile genId state raw = Except.error e) :
    runPerformSearch compile genId state raw = state := by
  unfold runPerformSearch
  rw [h]

theorem runPerformSearch_of_ok {compile : CompileFn} {genId : String}
    {state : ServiceState} {raw : SearchRequest} {payload : SearchResponsePayload}
    {s2 : ServiceState}
    (h : performSearch compile genId state raw = Except.ok (payload, s2)) :
    runPerformSearch compile genId state raw = s2 := by
  unfold runPerformSearch
  rw [h]

/-- C2: a regex-mode request whose main query fails to compile, or whose
exclude query fails to compile while the main one does (or is absent),
fails with the correspondingly tagged invalid-pattern error, produces no
response, and leaves the result cache untouched. -/
theorem c2_invalid_pattern_fails (compile : CompileFn) (genId : String)
    (state : ServiceState) (raw : SearchRequest) (hr : raw.isRegex = true) :
    (trimText raw.query ≠ [] →
      compile (trimText raw.query) (!raw.matchCase) = none →
      performSearch compile genId state raw =
          Except.error (PatternError.mainInvalid (trimText raw.query)) ∧
        runPerformSearch compile genId state raw = state) ∧
    (∀ eq : Text, trimText (raw.excludeQuery.getD []) = eq → eq ≠ [] →
      compile eq (!raw.matchCase) = none →
      (trimText raw.query = [] ∨
        (∃ f, compile (trimText raw.query) (!raw.matchCase) = some f)) →
      performSearch compile genId state raw =
          Except.error (PatternError.excludeInvalid eq) ∧
        runPerformSearch compile genId state raw = state) := by
  have hnq : (normalizeRequest raw).query = trimText raw.query := rfl
  have hnr : (normalizeRequest raw).isRegex = raw.isRegex := rfl
  have hnc : (normalizeRequest raw).matchCase = raw.matchCase := rfl
  constructor
  · intro hq hc
    have hmm : buildMainMatcher compile (normalizeRequest raw) =
        Except.error (PatternError.mainInvalid (trimText raw.query)) := by
      have := @buildMainMatcher_err compile (normalizeRequest raw)
        (by rw [hnr]; exact hr) (by rw [hnq]; exact hq) (by rw [hnq, hnc]; exact hc)
      rw [hnq] at this
      exact this
    have herr := performSearch_eq_error genId state (buildMatchers_main_err hmm)
    exact ⟨herr, runPerformSearch_of_error herr⟩
  · intro eq heq hne hc hmain
    have hmm : ∃ m, buildMainMatcher compile (normalizeRequest raw) = Except.ok m := by
      rcases hmain with hempty | ⟨f, hf⟩
      · exact ⟨none, buildMainMatcher_ok_empty (by rw [hnq]; exact hempty)⟩
      · exact buildMainMatcher_ok_some (f := f) (by rw [hnq, hnc]; exact hf)
    rcases hmm with ⟨m, hm⟩
    have hexq : (normalizeRequest raw).excludeQuery = some eq := by
      show (if (trimText (raw.excludeQuery.getD [])).length != 0
        then some (trimText (raw.excludeQuery.getD [])) else none) = some eq
      rw [heq]
      have : (eq.length != 0) = true := by
        simp [List.length_eq_zero]
        exact hne
      rw [this]
      simp
    have herr := performSearch_eq_error genId state
      (buildMatchers_exclude_err hm hexq hne (by rw [hnr]; exact hr)
        (by rw [hnc]; exact hc))
    exact ⟨herr, runPerformSearch_of_error herr⟩

/-! ### candidate resolution facts -/

theorem candidateResults_empty_query {state : ServiceState} {request : SearchRequest}
    {o : FindMatchOptions} (h : request.query.length = 0) :
    candidateResults state request o = [] := by
  unfold candidateResults
  simp [h]

theorem candidateResults_missing_base {state : ServiceState} {request : SearchRequest}
    {o : FindMatchOptions} {sid : String}
    (hs : request.scope = some (SearchScope.search sid))
    (hm : mapGet state.searchResultsStore sid = none) :
    candidateResults state request o = [] := by
  unfold candidateResults
  by_cases hq : request.query.length == 0
  · simp [hq]
  · simp only [hq, Bool.false_eq_true, if_false, hs, hm]

theorem syncTabState_store_eq (s : ServiceState) (tab : SearchableTab) :
    (syncTabState s tab).searchResultsStore = s.searchResultsStore := rfl

theorem removeTabState_store_eq (s : ServiceState) (tabId : String) :
    (removeTabState s tabId).searchResultsStore = s.searchResultsStore := rfl

theorem updateTab_store_eq (s : ServiceState) (fp : String) (c : Text) :
    (updateTabContentByFilePath s fp c).searchResultsStore = s.searchResultsStore := by
  unfold updateTabContentByFilePath
  split
  · rfl
  · split
    · rfl
    · rfl

/-- C5 (amended): a request whose trimmed query is empty and whose matcher
construction succeeds (always so outside regex mode, and in regex mode
whenever the exclude query is absent or compiles) short-circuits to an
empty result set, under a fresh searchId, with the parent linkage
preserved, and the empty response is cached. -/
theorem c5_empty_query_short_circuit (compile : CompileFn) (genId : String)
    (state : ServiceState) (raw : SearchRequest) (mm : Option ExecFn × Option ExecFn)
    (hq : trimText raw.query = [])
    (hok : buildMatchers compile (normalizeRequest raw) = Except.ok mm) :
    ∃ payload : SearchResponsePayload,
      performSearch compile genId state raw =
        Except.ok (payload, runPerformSearch compile genId state raw) ∧
      payload.results = [] ∧
      payload.searchId = genId ∧
      payload.parentSearchId =
        (match raw.scope with
         | some (SearchScope.search sid) => some sid
         | _ => none) ∧
      mapGet (runPerformSearch compile genId state raw).searchResultsStore genId =
        some payload := by
  have hqlen : (normalizeRequest raw).query.length = 0 := by
    show (trimText raw.query).length = 0
    rw [hq]
    rfl
  have hcr : candidateResults state (normalizeRequest raw)
      (mkFindOptions (normalizeRequest raw) mm.1 mm.2) = [] :=
    candidateResults_empty_query hqlen
  have hps := performSearch_eq_ok genId state hok
  rw [hcr] at hps
  have hrun := runPerformSearch_of_ok hps
  refine ⟨payloadFor genId (normalizeRequest raw) [], ?_, rfl, rfl, ?_, ?_⟩
  · rw [hps, hrun]
  · show (match (normalizeRequest raw).scope with
      | some (SearchScope.search sid) => some sid
      | _ => none) = _
    rcases hsc : raw.scope with _ | sc
    · simp [normalizeRequest, hsc]
    · rcases sc with _ | sid
      · simp [normalizeRequest, hsc]
      · simp [normalizeRequest, hsc]
  · rw [hrun]
    exact mapGet_mapSet_self _ _ _

/-- C5 counterexample: the request with empty query but invalid regex
exclude query errors instead of returning the empty cached response the
claim promises for every empty-query request. -/
theorem c5_counterexample :
    performSearch modelCompile "c5" initialState exEmptyQueryBadExclude =
      Except.error (PatternError.excludeInvalid ['(']) := by
  rfl

/-- C8 (amended): a request scoped to a searchId absent from the cache,
whose matcher construction succeeds (always so outside regex mode), is
not an error: the candidate set is empty, an empty response is produced
and cached; and disposing a searchId removes it from the cache, so a
subsequent request scoped to it meets exactly this case. -/
theorem c8_missing_scope_soft (compile : CompileFn) (genId : String)
    (state : ServiceState) (raw : SearchRequest) (mm : Option ExecFn × Option ExecFn)
    (sid : String)
    (hok : buildMatchers compile (normalizeRequest raw) = Except.ok mm)
    (hscope : raw.scope = some (SearchScope.search sid))
    (hmiss : mapGet state.searchResultsStore sid = none) :
    (∃ payload : SearchResponsePayload,
      performSearch compile genId state raw =
        Except.ok (payload, runPerformSearch compile genId state raw) ∧
      payload.results = [] ∧
      payload.searchId = genId ∧
      payload.parentSearchId = some sid ∧
      mapGet (runPerformSearch compile genId state raw).searchResultsStore genId =
        some payload) ∧
    (∀ s : ServiceState,
      mapGet (disposeSearchResults s sid).searchResultsStore sid = none) := by
  have hnscope : (normalizeRequest raw).scope = some (SearchScope.search sid) := by
    simp [normalizeRequest, hscope]
  have hcr : candidateResults state (normalizeRequest raw)
      (mkFindOptions (normalizeRequest raw) mm.1 mm.2) = [] :=
    candidateResults_missing_base hnscope hmiss
  have hps := performSearch_eq_ok genId state hok
  rw [hcr] at hps
  have hrun := runPerformSearch_of_ok hps
  constructor
  · refine ⟨payloadFor genId (normalizeRequest raw) [], ?_, rfl, rfl, ?_, ?_⟩
    · rw [hps, hrun]
    · show (match (normalizeRequest raw).scope with
        | some (SearchScope.search s) => some s
        | _ => none) = some sid
      rw [hnscope]
    · rw [hrun]
      exact mapGet_mapSet_self _ _ _
  · intro s
    exact mapGet_mapDelete_self _ _

/-- C8 counterexample: a request scoped to a missing searchId still errors
when its regex query is invalid, against the claim's promise that every
such request is error-free. -/
theorem c8_counterexample :
    performSearch modelCompile "c8" initialState exBadMainMissingScope =
      Except.error (PatternError.mainInvalid ['(']) := by
  rfl

/-- Witness for C2 at a concrete input: the invalid main pattern errors
with the main tag and the state is kept. -/
theorem c2_invalid_pattern_fails_witness :
    performSearch modelCompile "w2" initialState exBadMainMissingScope =
      Except.error (PatternError.mainInvalid (trimText exBadMainMissingScope.query)) ∧
    runPerformSearch modelCompile "w2" initialState exBadMainMissingScope = initialState :=
  (c2_invalid_pattern_fails modelCompile "w2" initialState exBadMainMissingScope rfl).1
    (by decide) rfl

/-- Witness for C5 at a concrete input: a blank literal query produces the
empty cached response. -/
theorem c5_empty_query_short_circuit_witness :
    ∃ payload : SearchResponsePayload,
      performSearch modelCompile "w5" exState
          { query := [' '], isRegex := false, matchCase := true,
            excludeQuery := none, scope := none, dedupeLines := none } =
        Except.ok (payload, runPerformSearch modelCompile "w5" exState
          { query := [' '], isRegex := false, matchCase := true,
            excludeQuery := none, scope := none, dedupeLines := none }) ∧
      payload.results = [] ∧
      payload.searchId = "w5" ∧
      payload.parentSearchId =
        (match (none : Option SearchScope) with
         | some (SearchScope.search sid) => some sid
         | _ => none) ∧
      mapGet (runPerformSearch modelCompile "w5" exState
          { query := [' '], isRegex := false, matchCase := true,
            excludeQuery := none, scope := none, dedupeLines := none }).searchResultsStore
          "w5" = some payload :=
  c5_empty_query_short_circuit modelCompile "w5" exState
    { query := [' '], isRegex := false, matchCase := true,
      excludeQuery := none, scope := none, dedupeLines := none }
    (none, none) (by decide) rfl

/-- Witness for C8 at a concrete input: a literal request scoped to a
disposed searchId yields the empty cached response. -/
theorem c8_missing_scope_soft_witness :
    (∃ payload : SearchResponsePayload,
      performSearch modelCompile "w8" initialState exRefineRequest =
        Except.ok (payload, runPerformSearch modelCompile "w8" initialState exRefineRequest) ∧
      payload.results = [] ∧
      payload.searchId = "w8" ∧
      payload.parentSearchId = some "s-1" ∧
      mapGet (runPerformSearch modelCompile "w8" initialState
          exRefineRequest).searchResultsStore "w8" = some payload) ∧
    (∀ s : ServiceState,
      mapGet (disposeSearchResults s "s-1").searchResultsStore "s-1" = none) :=
  c8_missing_scope_soft modelCompile "w8" initialState exRefineRequest (none, none) "s-1"
    rfl (by decide) rfl

/-- C10: in every reachable state each cached key maps to a response whose
own searchId is that key; a successful performSearch adds exactly its
fresh key and disturbs no other entry nor the tab store; dispose removes
at most the given key. -/
theorem c10_cache_key_coherence (compile : CompileFn) :
    (∀ s, Reachable compile s →
      ∀ id r, mapGet s.searchResultsStore id = some r → r.searchId = id) ∧
    (∀ genId s raw payload s2,
      performSearch compile genId s raw = Except.ok (payload, s2) →
      payload.searchId = genId ∧
      mapGet s2.searchResultsStore genId = some payload ∧
      (∀ k, k ≠ genId → mapGet s2.searchResultsStore k = mapGet s.searchResultsStore k) ∧
      s2.tabStore = s.tabStore) ∧
    (∀ s sid,
      mapGet (disposeSearchResults s sid).searchResultsStore sid = none ∧
      ∀ k, k ≠ sid →
        mapGet (disposeSearchResults s sid).searchResultsStore k =
          mapGet s.searchResultsStore k) := by
  have hperf : ∀ genId (s : ServiceState) raw payload s2,
      performSearch compile genId s raw = Except.ok (payload, s2) →
      payload.searchId = genId ∧
      mapGet s2.searchResultsStore genId = some payload ∧
      (∀ k, k ≠ genId → mapGet s2.searchResultsStore k = mapGet s.searchResultsStore k) ∧
      s2.tabStore = s.tabStore := by
    intro genId s raw payload s2 h
    obtain ⟨hsid, _, hts, hss, _⟩ := performSearch_ok_inv h
    refine ⟨hsid, ?_, ?_, hts⟩
    · rw [hss]
      exact mapGet_mapSet_self _ _ _
    · intro k hk
      rw [hss]
      exact mapGet_mapSet_other _ _ _ _ hk
  refine ⟨?_, hperf, ?_⟩
  · intro s hs
    induction hs with
    | init => intro id r h; simp [initialState, mapGet] at h
    | @perform s genId req payload s2 hreach hok ih =>
      intro id r hget
      obtain ⟨hsid, _, _, hss, _⟩ := performSearch_ok_inv hok
      by_cases hid : id = genId
      · subst hid
        rw [hss, mapGet_mapSet_self] at hget
        injection hget with hr2
        rw [← hr2, hsid]
      · rw [hss, mapGet_mapSet_other _ _ _ _ hid] at hget
        exact ih id r hget
    | sync tab hreach ih =>
      intro id r hget
      rw [syncTabState_store_eq] at hget
      exact ih id r hget
    | remove tabId hreach ih =>
      intro id r hget
      rw [removeTabState_store_eq] at hget
      exact ih id r hget
    | dispose searchId hreach ih =>
      intro id r hget
      by_cases hid : id = searchId
      · subst hid
        rw [show (disposeSearchResults _ id).searchResultsStore =
            mapDelete _ id from rfl, mapGet_mapDelete_self] at hget
        exact absurd hget (by simp)
      · rw [show (disposeSearchResults _ searchId).searchResultsStore =
            mapDelete _ searchId from rfl, mapGet_mapDelete_other _ _ _ hid] at hget
        exact ih id r hget
    | update fp c hreach ih =>
      intro id r hget
      rw [updateTab_store_eq] at hget
      exact ih id r hget
  · intro s sid
    exact ⟨mapGet_mapDelete_self _ _, fun k hk => mapGet_mapDelete_other _ _ _ hk⟩

/-! ### Decimal keys are injective -/

theorem digitVal_digitChar {d : Nat} (h : d < 10) : digitVal (digitChar d) = d := by
  interval_cases d <;> rfl

theorem digitChar_ne_colon {d : Nat} (h : d < 10) : digitChar d ≠ ':' := by
  interval_cases d <;> decide

theorem digitsVal_append_digit (ds : Text) (c : Char) :
    digitsVal (ds ++ [c]) = 10 * digitsVal ds + digitVal c := by
  unfold digitsVal
  rw [List.foldl_append]
  rfl

theorem digitsVal_natDigits (n : Nat) : digitsVal (natDigits n) = n := by
  induction n using Nat.strong_induction_on with
  | _ n ih =>
    by_cases h : n < 10
    · rw [natDigits, if_pos h]
      show 10 * 0 + digitVal (digitChar n) = n
      rw [digitVal_digitChar h]
      omega
    · rw [natDigits, if_neg h]
      rw [digitsVal_append_digit]
      rw [ih (n / 10) (Nat.div_lt_self (by omega) (by omega))]
      rw [digitVal_digitChar (Nat.mod_lt _ (by omega))]
      omega

theorem natDigits_inj {a b : Nat} (h : natDigits a = natDigits b) : a = b := by
  have ha := digitsVal_natDigits a
  rw [h, digitsVal_natDigits] at ha
  exact ha.symm

theorem natDigits_no_colon (n : Nat) : ∀ c ∈ natDigits n, c ≠ ':' := by
  induction n using Nat.strong_induction_on with
  | _ n ih =>
    intro c hc
    by_cases h : n < 10
    · rw [natDigits, if_pos h] at hc
      simp at hc
      rw [hc]
      exact digitChar_ne_colon h
    · rw [natDigits, if_neg h] at hc
      rcases List.mem_append.mp hc with h1 | h2
      · exact ih (n / 10) (Nat.div_lt_self (by omega) (by omega)) c h1
      · simp at h2
        rw [h2]
        exact digitChar_ne_colon (Nat.mod_lt _ (by omega))

theorem append_colon_inj {d1 d2 s1 s2 : Text}
    (h1 : ∀ c ∈ d1, c ≠ ':') (h2 : ∀ c ∈ d2, c ≠ ':')
    (h : d1 ++ ':' :: ':' :: s1 = d2 ++ ':' :: ':' :: s2) :
    d1 = d2 ∧ s1 = s2 := by
  induction d1 generalizing d2 with
  | nil =>
    cases d2 with
    | nil => simpa using h
    | cons c2 t2 =>
      rw [List.nil_append, List.cons_append] at h
      injection h with hc ht
      exact absurd hc.symm (h2 c2 (by simp))
  | cons c1 t1 ih =>
    cases d2 with
    | nil =>
      rw [List.nil_append, List.cons_append] at h
      injection h with hc ht
      exact absurd hc (h1 c1 (by simp))
    | cons c2 t2 =>
      rw [List.cons_append, List.cons_append] at h
      injection h with hc ht
      obtain ⟨hd, hs⟩ := ih (fun c hcm => h1 c (by simp [hcm]))
        (fun c hcm => h2 c (by simp [hcm])) ht
      exact ⟨by rw [hc, hd], hs⟩

theorem dedupeKey_inj {l1 l2 : Nat} {p1 p2 : Text}
    (h : dedupeKey l1 p1 = dedupeKey l2 p2) : l1 = l2 ∧ p1 = p2 := by
  unfold dedupeKey at h
  obtain ⟨hd, hp⟩ := append_colon_inj (natDigits_no_colon l1) (natDigits_no_colon l2) h
  exact ⟨natDigits_inj hd, hp⟩

/-! ### Deduplicated rescan -/

theorem dedupeScan_cons (m : SearchMatch) (rest : List SearchMatch) (seen : List Text) :
    dedupeScan (m :: rest) seen =
      if seen.contains (dedupeKey m.line m.preview) then dedupeScan rest seen
      else m :: dedupeScan rest (dedupeKey m.line m.preview :: seen) := rfl

theorem aggregateAux_cons (options : FindMatchOptions) (m : SearchMatch)
    (rest : List SearchMatch) (processed : List Text) :
    aggregateAux options (m :: rest) processed =
      if processed.contains (dedupeKey m.line m.preview) then
        aggregateAux options rest processed
      else expandMatch options m ++
        aggregateAux options rest (dedupeKey m.line m.preview :: processed) := rfl

theorem aggregateAux_eq_dedupe (options : FindMatchOptions) (ms : List SearchMatch)
    (seen : List Text) :
    aggregateAux options ms seen = (dedupeScan ms seen).flatMap (expandMatch options) := by
  induction ms generalizing seen with
  | nil => rfl
  | cons m rest ih =>
    rw [aggregateAux_cons, dedupeScan_cons]
    by_cases hk : seen.contains (dedupeKey m.line m.preview)
    · rw [if_pos hk, if_pos hk, ih]
    · rw [if_neg hk, if_neg hk, ih, List.flatMap_cons]

theorem dedupeScan_countP (ms : List SearchMatch) (seen : List Text) (l : Nat) (p : Text) :
    (dedupeScan ms seen).countP (fun m => m.line == l && m.preview == p) =
      (if seen.contains (dedupeKey l p) then 0
       else if ms.any (fun m => m.line == l && m.preview == p) then 1 else 0) := by
  induction ms generalizing seen with
  | nil =>
    show (0 : Nat) = _
    simp [dedupeScan]
  | cons m rest ih =>
    rw [dedupeScan_cons]
    by_cases hpair : (m.line == l && m.preview == p) = true
    · have hlp : m.line = l ∧ m.preview = p := by
        have hb := Bool.and_eq_true_iff.mp hpair
        exact ⟨by simpa using hb.1, by simpa using hb.2⟩
      have hkey : dedupeKey m.line m.preview = dedupeKey l p := by
        rw [hlp.1, hlp.2]
      have hany : (m :: rest).any (fun m => m.line == l && m.preview == p) = true := by
        simp [List.any_cons, hpair]
      by_cases hk : seen.contains (dedupeKey m.line m.preview)
      · rw [if_pos hk, ih]
        rw [hkey] at hk
        rw [if_pos hk, if_pos hk]
      · rw [if_neg hk, List.countP_cons, ih]
        have hmem : ((dedupeKey m.line m.preview :: seen).contains (dedupeKey l p)) = true := by
          rw [hkey]
          simp [List.contains_cons]
        rw [if_pos hmem]
        rw [hkey] at hk
        rw [if_neg hk, if_pos hany]
        simp [hpair]
    · have hpairf : (m.line == l && m.preview == p) = false := by simpa using hpair
      have hany : (m :: rest).any (fun m => m.line == l && m.preview == p) =
          rest.any (fun m => m.line == l && m.preview == p) := by
        simp [List.any_cons, hpairf]
      by_cases hk : seen.contains (dedupeKey m.line m.preview)
      · rw [if_pos hk, ih, hany]
      · rw [if_neg hk, List.countP_cons, ih]
        have hkne : ((dedupeKey l p == dedupeKey m.line m.preview) : Bool) = false := by
          by_contra hcon
          have heq : dedupeKey l p = dedupeKey m.line m.preview := by
            have hb := Bool.of_not_eq_false hcon
            simpa using hb
          obtain ⟨hl2, hp2⟩ := dedupeKey_inj heq
          rw [← hl2, ← hp2] at hpairf
          simp at hpairf
        have hcontains : ((dedupeKey m.line m.preview :: seen).contains (dedupeKey l p)) =
            seen.contains (dedupeKey l p) := by
          simp only [List.contains_cons, hkne, Bool.false_or]
        rw [hcontains, hany]
        simp [hpairf]

theorem mem_filterSearchResults {base : List SearchResponseItem}
    {options : FindMatchOptions} {item : SearchResponseItem}
    (h : item ∈ filterSearchResults base options) :
    options.query.length ≠ 0 ∧
    ∃ src ∈ base, item.tabId = src.tabId ∧ item.title = src.title ∧
      item.filePath = src.filePath ∧
      item.matches' = aggregateAux options src.matches' [] ∧
      item.matches' ≠ [] := by
  unfold filterSearchResults at h
  by_cases hq : options.query.length == 0
  · rw [if_pos hq] at h
    exact absurd h (by simp)
  · rw [if_neg hq] at h
    rcases List.mem_filterMap.mp h with ⟨src, hsrc, hf⟩
    by_cases hagg : (aggregateAux options src.matches' []).length == 0
    · rw [if_pos hagg] at hf
      exact absurd hf (by simp)
    · rw [if_neg hagg] at hf
      injection hf with hf
      refine ⟨by simpa using hq, src, hsrc, ?_, ?_, ?_, ?_, ?_⟩
      · rw [← hf]
      · rw [← hf]
      · rw [← hf]
      · rw [← hf]
      · rw [← hf]
        show aggregateAux options src.matches' [] ≠ []
        intro hnil
        rw [hnil] at hagg
        simp at hagg

/-- C4: refinement deduplicates identical (line, lineText) pairs before
rescanning — each refined item's matches are the concatenation of one
rescan per distinct (line, preview) key of the parent item, and any
(line, preview) pair occurring among the parent matches is rescanned
exactly once, never N times. -/
theorem c4_dedupe_rescans_once (options : FindMatchOptions) :
    (∀ baseResults item, item ∈ filterSearchResults baseResults options →
      ∃ src ∈ baseResults, item.tabId = src.tabId ∧
        item.matches' = (dedupeScan src.matches' []).flatMap (expandMatch options)) ∧
    (∀ (ms : List SearchMatch) (l : Nat) (p : Text),
      ms.any (fun m => m.line == l && m.preview == p) = true →
      (dedupeScan ms []).countP (fun m => m.line == l && m.preview == p) = 1) := by
  constructor
  · intro baseResults item hmem
    obtain ⟨-, src, hsrc, htab, -, -, hms, -⟩ := mem_filterSearchResults hmem
    exact ⟨src, hsrc, htab, by rw [hms, aggregateAux_eq_dedupe]⟩
  · intro ms l p hany
    rw [dedupeScan_countP]
    simp only [List.contains_nil, Bool.false_eq_true, if_false]
    rw [if_pos hany]

/-! ### Refinement containment -/

theorem dedupeScan_sublist (ms : List SearchMatch) (seen : List Text) :
    (dedupeScan ms seen).Sublist ms := by
  induction ms generalizing seen with
  | nil => exact List.Sublist.refl []
  | cons m rest ih =>
    rw [dedupeScan_cons]
    by_cases hk : seen.contains (dedupeKey m.line m.preview)
    · rw [if_pos hk]
      exact List.Sublist.cons m (ih seen)
    · rw [if_neg hk]
      exact List.Sublist.cons₂ m (ih _)

theorem mem_aggregateAux {options : FindMatchOptions} {ms : List SearchMatch}
    {m : SearchMatch} (h : m ∈ aggregateAux options ms []) :
    ∃ pm ∈ ms, m ∈ expandMatch options pm := by
  rw [aggregateAux_eq_dedupe] at h
  rcases List.mem_flatMap.mp h with ⟨pm, hpm, hmem⟩
  exact ⟨pm, (dedupeScan_sublist ms []).mem hpm, hmem⟩

/-- C3: a request refining a cached parent response only rescans the
parent's stored previews — every refined match carries some parent
match's line and lineText for the same buffer, with the column and
matched text of a fresh scan of that lineText. -/
theorem c3_refinement_containment (compile : CompileFn) (genId : String)
    (state : ServiceState) (raw : SearchRequest) (payload : SearchResponsePayload)
    (s2 : ServiceState) (sid : String) (base : SearchResponsePayload)
    (h : performSearch compile genId state raw = Except.ok (payload, s2))
    (hscope : (normalizeRequest raw).scope = some (SearchScope.search sid))
    (hbase : mapGet state.searchResultsStore sid = some base) :
    ∃ mm : Option ExecFn × Option ExecFn,
      buildMatchers compile (normalizeRequest raw) = Except.ok mm ∧
      RefinedFromBase (mkFindOptions (normalizeRequest raw) mm.1 mm.2)
        base.results payload.results := by
  obtain ⟨-, -, -, -, mm, hbm, hpay⟩ := performSearch_ok_inv h
  refine ⟨mm, hbm, ?_⟩
  have hres : payload.results =
      candidateResults state (normalizeRequest raw)
        (mkFindOptions (normalizeRequest raw) mm.1 mm.2) := by
    rw [hpay]
    rfl
  rw [hres]
  unfold candidateResults
  by_cases hq : (normalizeRequest raw).query.length == 0
  · rw [if_pos hq]
    intro item hitem
    exact absurd hitem (by simp)
  · rw [if_neg hq]
    simp only [hscope, hbase]
    intro item hitem
    obtain ⟨-, src, hsrc, htab, -, -, hms, -⟩ := mem_filterSearchResults hitem
    refine ⟨src, hsrc, htab, ?_⟩
    intro m hm
    rw [hms] at hm
    obtain ⟨pm, hpm, hexp⟩ := mem_aggregateAux hm
    rcases List.mem_map.mp hexp with ⟨nested, hnested, hmeq⟩
    refine ⟨pm, hpm, ?_, ?_, nested, hnested, ?_, ?_⟩ <;> rw [← hmeq]

/-- Witness for C3: refining the concrete cached search s-1 by the query
bar stays within the parent's matched lines. -/
theorem c3_refinement_containment_witness :
    ∃ payload : SearchResponsePayload, ∃ s2 : ServiceState,
      performSearch modelCompile "s-2" exState2 exRefineRequest =
        Except.ok (payload, s2) ∧
      ∃ base : SearchResponsePayload,
        mapGet exState2.searchResultsStore "s-1" = some base ∧
        ∃ mm : Option ExecFn × Option ExecFn,
          buildMatchers modelCompile (normalizeRequest exRefineRequest) = Except.ok mm ∧
          RefinedFromBase (mkFindOptions (normalizeRequest exRefineRequest) mm.1 mm.2)
            base.results payload.results :=
  ⟨_, _, rfl, _, rfl,
    c3_refinement_containment modelCompile "s-2" exState2 exRefineRequest _ _ "s-1" _
      rfl rfl rfl⟩

/-! ### Regex scan termination -/

theorem regexScan_isSome {exec : ExecFn} (hwf : ExecWF exec) (lineText : Text) :
    ∀ fuel pos : Nat, lineText.length + 1 - pos < fuel →
      (regexScan exec lineText pos fuel).isSome = true := by
  intro fuel
  induction fuel with
  | zero => intro pos h; omega
  | succ fuel ih =>
    intro pos h
    show (match exec lineText pos with
      | none => some []
      | some (i, n) =>
        (regexScan exec lineText (i + n + (if n == 0 then 1 else 0)) fuel).map
          (fun rest => (i, n) :: rest)).isSome = true
    cases hexec : exec lineText pos with
    | none => rfl
    | some hit =>
      obtain ⟨i, n⟩ := hit
      obtain ⟨hge, hle⟩ := hwf lineText pos i n hexec
      have hfuel : lineText.length + 1 - (i + n + (if n == 0 then 1 else 0)) < fuel := by
        by_cases hn : n = 0
        · simp only [hn]
          simp
          omega
        · have hb : (n == 0) = false := by simpa using hn
          rw [hb]
          simp only [Bool.false_eq_true, if_false]
          omega
      have hs := ih _ hfuel
      cases hr : regexScan exec lineText (i + n + (if n == 0 then 1 else 0)) fuel with
      | none =>
        rw [hr] at hs
        simp at hs
      | some rest =>
        simp only [beq_iff_eq] at hr ⊢
        simp [hr]

/-- C7: the regex scan loop terminates on every line for every well-formed
stepping function — the fuel findMatches supplies is never exhausted,
because a zero-length match still advances the cursor — and concretely
the pattern a-star over the single line bbb yields exactly the
zero-length matches at columns 1, 2, 3 and 4. -/
theorem c7_zero_length_regex_safety :
    (∀ exec : ExecFn, ExecWF exec → ∀ lineText : Text, ∀ pos fuel : Nat,
      lineText.length + 1 - pos < fuel →
      (regexScan exec lineText pos fuel).isSome = true) ∧
    findMatches ['b', 'b', 'b'] aStarOptions =
      [{ line := 1, column := 1, matched := [], preview := ['b', 'b', 'b'] },
       { line := 1, column := 2, matched := [], preview := ['b', 'b', 'b'] },
       { line := 1, column := 3, matched := [], preview := ['b', 'b', 'b'] },
       { line := 1, column := 4, matched := [], preview := ['b', 'b', 'b'] }] := by
  constructor
  · intro exec hwf lineText pos fuel h
    exact regexScan_isSome hwf lineText fuel pos h
  · rfl

/-! ### Literal scan against greedy selection -/

theorem occursAt_le {needle line : Text} {p : Nat} (h : occursAt needle line p = true) :
    p + needle.length ≤ line.length := by
  unfold occursAt at h
  have hb := Bool.and_eq_true_iff.mp h
  exact of_decide_eq_true hb.1

theorem filter_head?_eq_find? {α : Type} (p : α → Bool) (l : List α) :
    (l.filter p).head? = l.find? p := by
  induction l with
  | nil => rfl
  | cons a t ih =>
    rw [List.filter_cons, List.find?_cons]
    cases hp : p a
    · simp only [Bool.false_eq_true, if_false]
      exact ih
    · rfl

theorem indexOfFrom_some_next {haystack needle : Text} {f i : Nat} (hne : needle ≠ [])
    (h : indexOfFrom haystack needle f = some i) : IsNextOcc needle haystack f i := by
  unfold indexOfFrom at h
  have hni : needle.isEmpty = false := by
    cases needle
    · exact absurd rfl hne
    · rfl
  rw [hni] at h
  simp only [Bool.false_eq_true, if_false] at h
  rw [filter_head?_eq_find?] at h
  obtain ⟨hp, as, bs, happ, hmin⟩ := List.find?_eq_some.mp h
  have hpb := Bool.and_eq_true_iff.mp hp
  have hlen : as.length < (List.range (haystack.length + 1)).length := by
    rw [happ]
    simp
  have hgetr : (List.range (haystack.length + 1))[as.length]? = some i := by
    rw [happ, List.getElem?_append_right (le_refl as.length)]
    simp
  have hi_eq : i = as.length := by
    rw [List.getElem?_range (by simpa using hlen)] at hgetr
    injection hgetr with hg
    exact hg.symm
  have has : as = List.range i := by
    have h1 : (List.range (haystack.length + 1)).take as.length = as := by
      rw [happ]
      exact List.take_left as (i :: bs)
    rw [List.take_range] at h1
    have hlt : as.length < haystack.length + 1 := by simpa using hlen
    have hmin2 : min as.length (haystack.length + 1) = as.length := by omega
    rw [hmin2] at h1
    rw [hi_eq]
    exact h1.symm
  refine ⟨of_decide_eq_true hpb.1, hpb.2, ?_⟩
  intro q hfq hqi
  have hqmem : q ∈ as := by
    rw [has]
    exact List.mem_range.mpr hqi
  have h2 := hmin q hqmem
  rw [Bool.not_eq_true'] at h2
  cases hdec : decide (f ≤ q) with
  | false => simp [hfq] at hdec
  | true =>
    rw [hdec, Bool.true_and] at h2
    exact h2

theorem indexOfFrom_none_no_occ {haystack needle : Text} {f : Nat} (hne : needle ≠ [])
    (h : indexOfFrom haystack needle f = none) :
    ∀ q, f ≤ q → occursAt needle haystack q = false := by
  unfold indexOfFrom at h
  have hni : needle.isEmpty = false := by
    cases needle
    · exact absurd rfl hne
    · rfl
  rw [hni] at h
  simp only [Bool.false_eq_true, if_false] at h
  rw [filter_head?_eq_find?] at h
  have hall := List.find?_eq_none.mp h
  intro q hfq
  cases hocc : occursAt needle haystack q
  · rfl
  · have hqle : q + needle.length ≤ haystack.length := occursAt_le hocc
    have hq1 : 1 ≤ needle.length := by
      cases needle
      · exact absurd rfl hne
      · simp
    have hqmem : q ∈ List.range (haystack.length + 1) := List.mem_range.mpr (by omega)
    have h2 := hall q hqmem
    exact absurd (by simp [hfq, hocc]) h2

theorem isNextOcc_unique {needle line : Text} {f p q : Nat}
    (hp : IsNextOcc needle line f p) (hq : IsNextOcc needle line f q) : p = q := by
  obtain ⟨hfp, hop, hminp⟩ := hp
  obtain ⟨hfq, hoq, hminq⟩ := hq
  by_contra hne
  rcases Nat.lt_or_ge p q with hlt | hge
  · have := hminq p hfp hlt
    rw [hop] at this
    exact absurd this (by simp)
  · rcases Nat.lt_or_ge q p with hlt2 | hge2
    · have := hminp q hfq hlt2
      rw [hoq] at this
      exact absurd this (by simp)
    · omega

theorem indexOfFrom_of_isNextOcc {haystack needle : Text} {f p : Nat} (hne : needle ≠ [])
    (h : IsNextOcc needle haystack f p) :
    indexOfFrom haystack needle f = some p := by
  cases hres : indexOfFrom haystack needle f with
  | none =>
    have := indexOfFrom_none_no_occ hne hres p h.1
    rw [h.2.1] at this
    exact absurd this (by simp)
  | some i =>
    have hnext := indexOfFrom_some_next hne hres
    rw [isNextOcc_unique hnext h]

theorem selectedOcc_facts {needle line : Text} {f p : Nat}
    (h : SelectedOcc needle line f p) : f ≤ p ∧ occursAt needle line p = true := by
  induction h with
  | head h1 => exact ⟨h1.1, h1.2.1⟩
  | chain hsel hnext ih =>
    have h1 : 1 ≤ max needle.length 1 := Nat.le_max_right _ _
    refine ⟨?_, hnext.2.1⟩
    have h2 := ih.1
    have h3 := hnext.1
    omega

theorem selectedOcc_inv {needle line : Text} {f hit : Nat}
    (hh : IsNextOcc needle line f hit) :
    ∀ p, SelectedOcc needle line f p →
      p = hit ∨ SelectedOcc needle line (hit + max needle.length 1) p := by
  intro p hp
  induction hp with
  | head h1 => exact Or.inl (isNextOcc_unique h1 hh)
  | chain hsel hnext ih =>
    rcases ih with rfl | hs
    · exact Or.inr (SelectedOcc.head hnext)
    · exact Or.inr (SelectedOcc.chain hs hnext)

theorem selectedOcc_lift {needle line : Text} {f hit : Nat}
    (hh : IsNextOcc needle line f hit) :
    ∀ p, SelectedOcc needle line (hit + max needle.length 1) p →
      SelectedOcc needle line f p := by
  intro p hp
  induction hp with
  | head h1 => exact SelectedOcc.chain (SelectedOcc.head hh) h1
  | chain hsel hnext ih => exact SelectedOcc.chain ih hnext

theorem litScan_of_gt {haystack needle : Text} {f : Nat} (h : ¬ f ≤ haystack.length) :
    litScan haystack needle f = [] := by
  rw [litScan, dif_neg h]

theorem litScan_of_none {haystack needle : Text} {f : Nat} (hin : f ≤ haystack.length)
    (h : indexOfFrom haystack needle f = none) :
    litScan haystack needle f = [] := by
  rw [litScan, dif_pos hin]
  split
  · rfl
  · next hit2 heq =>
    rw [h] at heq
    exact absurd heq (by simp)

theorem litScan_of_some {haystack needle : Text} {f hit : Nat} (hin : f ≤ haystack.length)
    (h : indexOfFrom haystack needle f = some hit) :
    litScan haystack needle f =
      hit :: litScan haystack needle (hit + max needle.length 1) := by
  rw [litScan, dif_pos hin]
  split
  · next heq =>
    rw [h] at heq
    exact absurd heq (by simp)
  · next hit2 heq =>
    rw [h] at heq
    injection heq with he
    rw [he]

theorem litScan_mem_iff {haystack needle : Text} (hne : needle ≠ []) :
    ∀ f p : Nat, (p ∈ litScan haystack needle f ↔ SelectedOcc needle haystack f p) := by
  intro f0
  induction f0 using litScan.induct haystack needle with
  | case1 f hin hnone =>
    intro p
    rw [litScan_of_none hin hnone]
    constructor
    · intro hp
      exact absurd hp (by simp)
    · intro hsel
      obtain ⟨hfp, hocc⟩ := selectedOcc_facts hsel
      have := indexOfFrom_none_no_occ hne hnone p hfp
      rw [hocc] at this
      exact absurd this (by simp)
  | case2 f hin hit hhit ih =>
    intro p
    rw [litScan_of_some hin hhit]
    have hnext := indexOfFrom_some_next hne hhit
    constructor
    · intro hp
      rcases List.mem_cons.mp hp with rfl | hrest
      · exact SelectedOcc.head hnext
      · exact selectedOcc_lift hnext p ((ih p).mp hrest)
    · intro hsel
      rcases selectedOcc_inv hnext p hsel with rfl | hs
      · exact List.mem_cons_self _ _
      · exact List.mem_cons_of_mem _ ((ih p).mpr hs)
  | case3 f hgt =>
    intro p
    rw [litScan_of_gt hgt]
    constructor
    · intro hp
      exact absurd hp (by simp)
    · intro hsel
      obtain ⟨hfp, hocc⟩ := selectedOcc_facts hsel
      have hle := occursAt_le hocc
      have h1 : 1 ≤ needle.length := by
        cases needle
        · exact absurd rfl hne
        · simp
      omega

theorem lineMatches_literal {o : FindMatchOptions} (hreg : o.isRegex = false)
    (hcase : o.matchCase = true) (hexc : o.excludeQuery = none) (hq : o.query ≠ [])
    (idx : Nat) (lineText : Text) :
    lineMatches o idx lineText =
      (litScan lineText o.query 0).map (fun hit =>
        { line := idx + 1, column := hit + 1,
          matched := (lineText.drop hit).take o.query.length, preview := lineText }) := by
  obtain ⟨q, ir, mc, mat, ex, exm⟩ := o
  simp only at hreg hcase hexc hq
  subst hreg
  subst hcase
  subst hexc
  have hql : (q.length == 0) = false := by
    simp [List.length_eq_zero]
    exact hq
  unfold lineMatches
  simp only [hql, Bool.and_false, Bool.false_eq_true, if_false]
  have hexcl : shouldExcludeLine
      { query := q, isRegex := false, matchCase := true, matcher := mat,
        excludeQuery := none, excludeMatcher := exm } lineText = false := rfl
  rw [hexcl]
  simp only [Bool.false_eq_true, if_false]
  rfl

/-- C1 (amended): for literal case-sensitive searches with no exclude
query, the (line, column) pairs are exactly the 1-based positions the
greedy left-to-right scan selects per line — the first occurrence, then
repeatedly the first occurrence at least the needle length past the
previous selection, so overlapping occurrences inside a selected match
are skipped rather than reported. -/
theorem c1_literal_scan_positions (o : FindMatchOptions) (content : Text)
    (hreg : o.isRegex = false) (hcase : o.matchCase = true)
    (hexc : o.excludeQuery = none) (hq : o.query ≠ []) :
    ∀ l c : Nat,
      ((l, c) ∈ (findMatches content o).map (fun m => (m.line, m.column)) ↔
        ∃ idx : Nat, ∃ lineText : Text,
          (splitLines content)[idx]? = some lineText ∧ l = idx + 1 ∧
          ∃ p : Nat, c = p + 1 ∧ SelectedOcc o.query lineText 0 p) := by
  intro l c
  unfold findMatches
  constructor
  · intro hmem
    rcases List.mem_map.mp hmem with ⟨m, hm, hpair⟩
    rcases List.mem_flatMap.mp hm with ⟨pr, hpr, hline⟩
    obtain ⟨idx, lineText⟩ := pr
    rw [lineMatches_literal hreg hcase hexc hq] at hline
    rcases List.mem_map.mp hline with ⟨hit, hhit, hrec⟩
    have hget : (splitLines content)[idx]? = some lineText :=
      List.mem_enum_iff_getElem?.mp hpr
    have hml : m.line = idx + 1 := by rw [← hrec]
    have hmc : m.column = hit + 1 := by rw [← hrec]
    have hlc : l = m.line ∧ c = m.column := by
      have : (m.line, m.column) = (l, c) := hpair
      injection this with h1 h2
      exact ⟨h1.symm, h2.symm⟩
    refine ⟨idx, lineText, hget, by rw [hlc.1, hml], hit, by rw [hlc.2, hmc], ?_⟩
    exact (litScan_mem_iff hq 0 hit).mp hhit
  · intro hex
    obtain ⟨idx, lineText, hget, hl, p, hc, hsel⟩ := hex
    apply List.mem_map.mpr
    refine ⟨SearchMatch.mk (idx + 1) (p + 1)
      ((lineText.drop p).take o.query.length) lineText, ?_, ?_⟩
    · apply List.mem_flatMap.mpr
      refine ⟨(idx, lineText), List.mem_enum_iff_getElem?.mpr hget, ?_⟩
      rw [lineMatches_literal hreg hcase hexc hq]
      apply List.mem_map.mpr
      exact ⟨p, (litScan_mem_iff hq 0 p).mpr hsel, rfl⟩
    · show (idx + 1, p + 1) = (l, c)
      rw [hl, hc]

/-- C1 counterexample: with query aa over the single line aaa there is a
raw occurrence at position 1 (column 2), yet the scan does not report
(1, 2) because it advances past the whole first hit — the returned pair
set is not the set of all raw occurrence positions. -/
theorem c1_counterexample :
    splitLines ['a', 'a', 'a'] = [['a', 'a', 'a']] ∧
    occursAt ['a', 'a'] ['a', 'a', 'a'] 1 = true ∧
    (findMatches ['a', 'a', 'a'] (plainOptions ['a', 'a'])).map
        (fun m => (m.line, m.column)) = [(1, 1)] ∧
    ¬((1, 2) ∈ [((1 : Nat), (1 : Nat))]) := by
  refine ⟨rfl, rfl, ?_, by decide⟩
  have h0 : indexOfFrom ['a', 'a', 'a'] ['a', 'a'] 0 = some 0 := rfl
  have h2 : indexOfFrom ['a', 'a', 'a'] ['a', 'a'] (0 + max (['a', 'a'] : Text).length 1) =
      none := rfl
  unfold findMatches
  rw [show splitLines ['a', 'a', 'a'] = [['a', 'a', 'a']] from rfl]
  rw [show ([['a', 'a', 'a']] : List Text).enum = [(0, ['a', 'a', 'a'])] from rfl]
  rw [List.flatMap_cons]
  rw [lineMatches_literal rfl rfl rfl (by decide) 0 ['a', 'a', 'a']]
  rw [show (plainOptions ['a', 'a']).query = ['a', 'a'] from rfl]
  rw [litScan_of_some (by decide) h0, litScan_of_none (by decide) h2]
  rfl

/-- Witness for C1 at a concrete input: the characterization instantiated
for the pair (2, 5) of the concrete buffer. -/
theorem c1_literal_scan_positions_witness :
    ((2, 5) ∈ (findMatches exTab.content (plainOptions ['f', 'o', 'o'])).map
        (fun m => (m.line, m.column)) ↔
      ∃ idx : Nat, ∃ lineText : Text,
        (splitLines exTab.content)[idx]? = some lineText ∧ 2 = idx + 1 ∧
        ∃ p : Nat, 5 = p + 1 ∧
          SelectedOcc (plainOptions ['f', 'o', 'o']).query lineText 0 p) :=
  c1_literal_scan_positions (plainOptions ['f', 'o', 'o']) exTab.content
    rfl rfl rfl (by decide) 2 5

/-! ### Ordering of scan hits -/

theorem indexOfFrom_some_bounds {haystack needle : Text} {fromIndex i : Nat}
    (hin : fromIndex ≤ haystack.length)
    (h : indexOfFrom haystack needle fromIndex = some i) :
    fromIndex ≤ i ∧ i ≤ haystack.length := by
  unfold indexOfFrom at h
  by_cases hne : needle.isEmpty
  · simp [hne] at h
    omega
  · simp only [hne, Bool.false_eq_true, if_false] at h
    rw [filter_head?_eq_find?] at h
    have hp := List.find?_some h
    have hmem := List.mem_of_find?_eq_some h
    have hir : i < haystack.length + 1 := List.mem_range.mp hmem
    have hc := Bool.and_eq_true_iff.mp hp
    exact ⟨of_decide_eq_true hc.1, by omega⟩

theorem litScan_ge {haystack needle : Text} :
    ∀ f, ∀ p ∈ litScan haystack needle f, f ≤ p := by
  intro f0
  induction f0 using litScan.induct haystack needle with
  | case1 f hin hnone =>
    intro p hp
    rw [litScan_of_none hin hnone] at hp
    exact absurd hp (by simp)
  | case2 f hin hit hhit ih =>
    intro p hp
    rw [litScan_of_some hin hhit] at hp
    obtain ⟨hge, -⟩ := indexOfFrom_some_bounds hin hhit
    rcases List.mem_cons.mp hp with rfl | hrest
    · exact hge
    · have h1 : 1 ≤ max needle.length 1 := Nat.le_max_right _ _
      have := ih p hrest
      omega
  | case3 f hgt =>
    intro p hp
    rw [litScan_of_gt hgt] at hp
    exact absurd hp (by simp)

theorem litScan_sorted {haystack needle : Text} :
    ∀ f, List.Pairwise (fun a b => a < b) (litScan haystack needle f) := by
  intro f0
  induction f0 using litScan.induct haystack needle with
  | case1 f hin hnone =>
    rw [litScan_of_none hin hnone]
    constructor
  | case2 f hin hit hhit ih =>
    rw [litScan_of_some hin hhit]
    constructor
    · intro p hp
      have h1 : 1 ≤ max needle.length 1 := Nat.le_max_right _ _
      have := litScan_ge _ p hp
      omega
    · exact ih
  | case3 f hgt =>
    rw [litScan_of_gt hgt]
    constructor

theorem regexScan_hits {exec : ExecFn} (hwf : ExecWF exec) (lineText : Text) :
    ∀ fuel pos hits, regexScan exec lineText pos fuel = some hits →
      (∀ h ∈ hits, pos ≤ h.1) ∧ List.Pairwise (fun a b => a.1 < b.1) hits := by
  intro fuel
  induction fuel with
  | zero =>
    intro pos hits h
    exact absurd h (by simp [regexScan])
  | succ fuel ih =>
    intro pos hits h
    rw [show regexScan exec lineText pos (fuel + 1) =
      (match exec lineText pos with
       | none => some []
       | some (i, n) =>
         (regexScan exec lineText (i + n + (if n == 0 then 1 else 0)) fuel).map
           (fun rest => (i, n) :: rest)) from rfl] at h
    cases hexec : exec lineText pos with
    | none =>
      rw [hexec] at h
      injection h with h2
      rw [← h2]
      exact ⟨by simp, by constructor⟩
    | some hit =>
      obtain ⟨i, n⟩ := hit
      rw [hexec] at h
      simp only [Option.map_eq_some'] at h
      obtain ⟨rest, hrest, hcons⟩ := h
      obtain ⟨hge, hle⟩ := hwf lineText pos i n hexec
      obtain ⟨ihge, ihsorted⟩ := ih _ rest hrest
      have hstep : i < i + n + (if n == 0 then 1 else 0) := by
        by_cases hn : n = 0
        · simp [hn]
        · have hb : (n == 0) = false := by simpa using hn
          rw [hb]
          simp only [Bool.false_eq_true, if_false]
          omega
      constructor
      · intro x hx
        rw [← hcons] at hx
        rcases List.mem_cons.mp hx with rfl | hxr
        · exact hge
        · have := ihge x hxr
          omega
      · rw [← hcons]
        constructor
        · intro x hx
          have := ihge x hx
          omega
        · exact ihsorted

/-! ### Per-line scanner facts -/

theorem lineMatches_line_preview {o : FindMatchOptions} {idx : Nat} {t : Text} :
    ∀ m ∈ lineMatches o idx t, m.line = idx + 1 ∧ m.preview = t := by
  intro m hm
  unfold lineMatches at hm
  split at hm
  · exact absurd hm (by simp)
  · split at hm
    · exact absurd hm (by simp)
    · split at hm
      · split at hm
        · rcases List.mem_map.mp hm with ⟨h2, -, hrec⟩
          exact ⟨by rw [← hrec], by rw [← hrec]⟩
        · exact absurd hm (by simp)
      · rcases List.mem_map.mp hm with ⟨hit, -, hrec⟩
        exact ⟨by rw [← hrec], by rw [← hrec]⟩

theorem lineMatches_not_excluded {o : FindMatchOptions} {idx : Nat} {t : Text} :
    ∀ m ∈ lineMatches o idx t, shouldExcludeLine o t = false := by
  intro m hm
  unfold lineMatches at hm
  split at hm
  · exact absurd hm (by simp)
  · split at hm
    · exact absurd hm (by simp)
    · next hexc =>
      simpa using hexc

theorem lineMatches_columns_sorted {o : FindMatchOptions} (hwf : OptionsWF o)
    (idx : Nat) (t : Text) :
    List.Pairwise (fun a b => a.column < b.column) (lineMatches o idx t) := by
  unfold lineMatches
  split
  · constructor
  · split
    · constructor
    · split
      · next hreg hmat =>
        split
        · next hits hscan =>
          apply List.pairwise_map.mpr
          have hexec := hwf _ hmat
          have := (regexScan_hits hexec t _ _ _ hscan).2
          exact this.imp (by intro a b hab; simpa using hab)
        · constructor
      · apply List.pairwise_map.mpr
        have := @litScan_sorted (if o.matchCase then t else lowerText t)
          (if o.matchCase then o.query else lowerText o.query) 0
        exact this.imp (by intro a b hab; simpa using hab)

/-! ### Line splitter facts -/

theorem splitLinesAux_no_newline :
    ∀ (content acc : Text), (∀ c ∈ acc, c ≠ '\n') →
      ∀ l ∈ splitLinesAux content acc, ∀ c ∈ l, c ≠ '\n' := by
  intro content acc
  induction content, acc using splitLinesAux.induct with
  | case1 acc =>
    intro hacc l hl c hc
    simp only [splitLinesAux, List.mem_singleton] at hl
    rw [hl] at hc
    exact hacc c (by simpa using hc)
  | case2 rest acc ih =>
    intro hacc l hl c hc
    simp only [splitLinesAux, List.mem_cons] at hl
    rcases hl with rfl | hl2
    · exact hacc c (by simpa using hc)
    · exact ih (by simp) l hl2 c hc
  | case3 rest acc ih =>
    intro hacc l hl c hc
    simp only [splitLinesAux, List.mem_cons] at hl
    rcases hl with rfl | hl2
    · exact hacc c (by simpa using hc)
    · exact ih (by simp) l hl2 c hc
  | case4 ch rest acc hne1 hne2 ih =>
    intro hacc l hl c hc
    rw [splitLinesAux.eq_4 acc ch rest hne1 hne2] at hl
    refine ih ?_ l hl c hc
    intro c3 hc3
    rcases List.mem_cons.mp hc3 with rfl | hmem
    · exact fun he => hne2 he
    · exact hacc c3 hmem

theorem splitLinesAux_of_no_newline :
    ∀ (content acc : Text), (∀ c ∈ content, c ≠ '\n') →
      splitLinesAux content acc = [acc.reverse ++ content] := by
  intro content acc
  induction content, acc using splitLinesAux.induct with
  | case1 acc =>
    intro hcon
    simp [splitLinesAux]
  | case2 rest acc ih =>
    intro hcon
    exact absurd rfl (hcon '\n' (by simp))
  | case3 rest acc ih =>
    intro hcon
    exact absurd rfl (hcon '\n' (by simp))
  | case4 ch rest acc hne1 hne2 ih =>
    intro hcon
    rw [splitLinesAux.eq_4 acc ch rest hne1 hne2]
    rw [ih (fun c hc => hcon c (List.mem_cons_of_mem _ hc))]
    simp

theorem splitLines_mem_no_newline {content : Text} :
    ∀ l ∈ splitLines content, ∀ c ∈ l, c ≠ '\n' :=
  splitLinesAux_no_newline content [] (by simp)

theorem splitLines_single {p : Text} (h : ∀ c ∈ p, c ≠ '\n') :
    SingleLineText p := by
  unfold SingleLineText splitLines
  rw [splitLinesAux_of_no_newline p [] h]
  rfl

theorem splitLines_mem_single {content : Text} :
    ∀ l ∈ splitLines content, SingleLineText l := by
  intro l hl
  exact splitLines_single (splitLines_mem_no_newline l hl)

theorem findMatches_single_line {p : Text} {o : FindMatchOptions}
    (h : SingleLineText p) :
    findMatches p o = lineMatches o 0 p := by
  unfold findMatches
  rw [h]
  show lineMatches o 0 p ++ [] = lineMatches o 0 p
  exact List.append_nil _

/-! ### findMatches item facts -/

theorem mem_flatMap_enumFrom_line {o : FindMatchOptions} {lines : List Text}
    {n : Nat} {m : SearchMatch}
    (h : m ∈ (List.enumFrom n lines).flatMap (fun p => lineMatches o p.1 p.2)) :
    n + 1 ≤ m.line := by
  rcases List.mem_flatMap.mp h with ⟨pr, hpr, hm⟩
  have hge := (List.mem_enumFrom hpr).1
  have hline := (lineMatches_line_preview m hm).1
  omega

theorem findMatches_sorted_aux {o : FindMatchOptions} (hwf : OptionsWF o)
    (lines : List Text) :
    ∀ n, List.Pairwise matchLtLex
      ((List.enumFrom n lines).flatMap (fun p => lineMatches o p.1 p.2)) := by
  induction lines with
  | nil =>
    intro n
    constructor
  | cons t rest ih =>
    intro n
    rw [List.enumFrom_cons, List.flatMap_cons]
    rw [List.pairwise_append]
    refine ⟨?_, ih (n + 1), ?_⟩
    · have hcols := lineMatches_columns_sorted hwf n t
      refine hcols.imp_of_mem ?_
      intro a b ha hb hab
      right
      have hla := (lineMatches_line_preview a ha).1
      have hlb := (lineMatches_line_preview b hb).1
      exact ⟨by rw [hla, hlb], hab⟩
    · intro a ha b hb
      left
      have hla := (lineMatches_line_preview a ha).1
      have hlb := mem_flatMap_enumFrom_line hb
      omega

theorem findMatches_sorted {o : FindMatchOptions} (hwf : OptionsWF o)
    (content : Text) :
    SortedMatches (findMatches content o) := by
  unfold SortedMatches findMatches
  have : (splitLines content).enum = List.enumFrom 0 (splitLines content) := rfl
  rw [this]
  exact findMatches_sorted_aux hwf (splitLines content) 0

theorem findMatches_mem_facts {o : FindMatchOptions} {content : Text}
    {m : SearchMatch} (h : m ∈ findMatches content o) :
    ∃ idx, m.line = idx + 1 ∧ (splitLines content)[idx]? = some m.preview := by
  unfold findMatches at h
  rcases List.mem_flatMap.mp h with ⟨pr, hpr, hm⟩
  obtain ⟨idx, t⟩ := pr
  obtain ⟨hline, hprev⟩ := lineMatches_line_preview m hm
  refine ⟨idx, hline, ?_⟩
  rw [hprev]
  exact List.mem_enum_iff_getElem?.mp hpr

theorem findMatches_itemInv {o : FindMatchOptions} (hwf : OptionsWF o)
    (content : Text) (item : SearchResponseItem)
    (hitem : item.matches' = findMatches content o) : ItemInv item := by
  refine ⟨?_, ?_, ?_⟩
  · rw [hitem]
    exact findMatches_sorted hwf content
  · intro m hm
    rw [hitem] at hm
    obtain ⟨idx, -, hget⟩ := findMatches_mem_facts hm
    exact splitLines_mem_single m.preview (List.getElem?_mem hget)
  · intro m hm m2 hm2 hline
    rw [hitem] at hm hm2
    obtain ⟨idx, hl1, hget1⟩ := findMatches_mem_facts hm
    obtain ⟨idx2, hl2, hget2⟩ := findMatches_mem_facts hm2
    have : idx = idx2 := by omega
    rw [this] at hget1
    rw [hget1] at hget2
    injection hget2

/-! ### Refinement preserves well-formed items -/

theorem dedupeScan_keys (ms : List SearchMatch) :
    ∀ seen : List Text,
      (∀ m ∈ dedupeScan ms seen, seen.contains (dedupeKey m.line m.preview) = false) ∧
      List.Pairwise (fun a b =>
        dedupeKey a.line a.preview ≠ dedupeKey b.line b.preview) (dedupeScan ms seen) := by
  induction ms with
  | nil =>
    intro seen
    exact ⟨by simp [dedupeScan], by constructor⟩
  | cons m rest ih =>
    intro seen
    rw [dedupeScan_cons]
    by_cases hk : seen.contains (dedupeKey m.line m.preview)
    · rw [if_pos hk]
      exact ih seen
    · rw [if_neg hk]
      obtain ⟨ihmem, ihpw⟩ := ih (dedupeKey m.line m.preview :: seen)
      constructor
      · intro x hx
        rcases List.mem_cons.mp hx with rfl | hxr
        · simpa using hk
        · have := ihmem x hxr
          rw [List.contains_cons] at this
          exact (Bool.or_eq_false_iff.mp this).2
      · constructor
        · intro b hb
          have := ihmem b hb
          rw [List.contains_cons] at this
          have hne := (Bool.or_eq_false_iff.mp this).1
          intro heq
          rw [heq] at hne
          simp at hne
        · exact ihpw

theorem pairwise_lt_line_eq {l : List SearchMatch}
    (h : List.Pairwise (fun a b => a.line < b.line) l) :
    ∀ x ∈ l, ∀ y ∈ l, x.line = y.line → x = y := by
  induction l with
  | nil => intro x hx; exact absurd hx (by simp)
  | cons a t ih =>
    intro x hx y hy heq
    rcases List.mem_cons.mp hx with rfl | hxt
    · rcases List.mem_cons.mp hy with rfl | hyt
      · rfl
      · have := (List.pairwise_cons.mp h).1 y hyt
        omega
    · rcases List.mem_cons.mp hy with rfl | hyt
      · have := (List.pairwise_cons.mp h).1 x hxt
        omega
      · exact ih (List.pairwise_cons.mp h).2 x hxt y hyt heq

theorem dedupeScan_lines_strict {ms : List SearchMatch}
    (hsorted : List.Pairwise matchLtLex ms)
    (hsame : ∀ a ∈ ms, ∀ b ∈ ms, a.line = b.line → a.preview = b.preview)
    (seen : List Text) :
    List.Pairwise (fun a b => a.line < b.line) (dedupeScan ms seen) := by
  have hsub := dedupeScan_sublist ms seen
  have hlex : List.Pairwise matchLtLex (dedupeScan ms seen) := hsorted.sublist hsub
  have hkeys := (dedupeScan_keys ms seen).2
  have hcomb := hlex.and hkeys
  refine hcomb.imp_of_mem ?_
  intro a b ha hb hab
  rcases hab.1 with hlt | ⟨heq, -⟩
  · exact hlt
  · have hprev := hsame a (hsub.mem ha) b (hsub.mem hb) heq
    exact absurd (by rw [heq, hprev]) hab.2

theorem expandMatch_line_preview {o : FindMatchOptions} {pm : SearchMatch} :
    ∀ m ∈ expandMatch o pm, m.line = pm.line ∧ m.preview = pm.preview := by
  intro m hm
  rcases List.mem_map.mp hm with ⟨nested, -, hrec⟩
  exact ⟨by rw [← hrec], by rw [← hrec]⟩

theorem expandMatch_columns {o : FindMatchOptions} (hwf : OptionsWF o)
    {pm : SearchMatch} (hsingle : SingleLineText pm.preview) :
    List.Pairwise (fun a b => a.column < b.column) (expandMatch o pm) := by
  unfold expandMatch
  rw [findMatches_single_line hsingle]
  apply List.pairwise_map.mpr
  exact (lineMatches_columns_sorted hwf 0 pm.preview).imp
    (by intro a b hab; simpa using hab)

theorem flatMap_expand_sorted {o : FindMatchOptions} (hwf : OptionsWF o) :
    ∀ ds : List SearchMatch,
      List.Pairwise (fun a b => a.line < b.line) ds →
      (∀ pm ∈ ds, SingleLineText pm.preview) →
      List.Pairwise matchLtLex (ds.flatMap (expandMatch o)) := by
  intro ds
  induction ds with
  | nil =>
    intro _ _
    constructor
  | cons pm rest ih =>
    intro hlines hsingle
    rw [List.flatMap_cons, List.pairwise_append]
    obtain ⟨hhead, htail⟩ := List.pairwise_cons.mp hlines
    refine ⟨?_, ih htail (fun x hx => hsingle x (List.mem_cons_of_mem _ hx)), ?_⟩
    · have hcols := expandMatch_columns hwf (hsingle pm (by simp))
      refine hcols.imp_of_mem ?_
      intro a b ha hb hab
      right
      have hla := (expandMatch_line_preview a ha).1
      have hlb := (expandMatch_line_preview b hb).1
      exact ⟨by rw [hla, hlb], hab⟩
    · intro a ha b hb
      rcases List.mem_flatMap.mp hb with ⟨pm2, hpm2, hb2⟩
      left
      have hla := (expandMatch_line_preview a ha).1
      have hlb := (expandMatch_line_preview b hb2).1
      have := hhead pm2 hpm2
      omega

theorem filterSearchResults_itemInv {o : FindMatchOptions} (hwf : OptionsWF o)
    {base : List SearchResponseItem} {item : SearchResponseItem}
    (hbase : ∀ src ∈ base, ItemInv src)
    (hitem : item ∈ filterSearchResults base o) : ItemInv item := by
  obtain ⟨-, src, hsrc, -, -, -, hms, -⟩ := mem_filterSearchResults hitem
  obtain ⟨hsorted, hsingle, hsame⟩ := hbase src hsrc
  rw [aggregateAux_eq_dedupe] at hms
  have hsub := dedupeScan_sublist src.matches' []
  have hlines := dedupeScan_lines_strict hsorted hsame []
  have hsingled : ∀ pm ∈ dedupeScan src.matches' [], SingleLineText pm.preview :=
    fun pm hpm => hsingle pm (hsub.mem hpm)
  refine ⟨?_, ?_, ?_⟩
  · rw [hms]
    exact flatMap_expand_sorted hwf _ hlines hsingled
  · intro m hm
    rw [hms] at hm
    rcases List.mem_flatMap.mp hm with ⟨pm, hpm, hmem⟩
    rw [(expandMatch_line_preview m hmem).2]
    exact hsingled pm hpm
  · intro m1 h1 m2 h2 heq
    rw [hms] at h1 h2
    rcases List.mem_flatMap.mp h1 with ⟨pm1, hpm1, hmem1⟩
    rcases List.mem_flatMap.mp h2 with ⟨pm2, hpm2, hmem2⟩
    obtain ⟨hl1, hp1⟩ := expandMatch_line_preview m1 hmem1
    obtain ⟨hl2, hp2⟩ := expandMatch_line_preview m2 hmem2
    have hpmeq : pm1 = pm2 := by
      apply pairwise_lt_line_eq hlines pm1 hpm1 pm2 hpm2
      omega
    rw [hp1, hp2, hpmeq]

/-! ### Compiled matchers are well formed -/

theorem buildMatchers_ok_main {compile : CompileFn} {request : SearchRequest}
    {mm : Option ExecFn × Option ExecFn}
    (h : buildMatchers compile request = Except.ok mm) :
    buildMainMatcher compile request = Except.ok mm.1 := by
  unfold buildMatchers at h
  cases hb : buildMainMatcher compile request with
  | error e =>
    rw [hb] at h
    exact absurd h (by simp)
  | ok matcher =>
    simp only [hb] at h
    cases hexq : request.excludeQuery with
    | none =>
      simp only [hexq] at h
      injection h with h2
      rw [← h2]
    | some eq =>
      simp only [hexq] at h
      by_cases hc : (eq.length != 0 && request.isRegex) = true
      · rw [if_pos hc] at h
        cases hcm : compile eq (!request.matchCase) with
        | none =>
          simp only [hcm] at h
          exact absurd h (by simp)
        | some f =>
          simp only [hcm] at h
          injection h with h2
          rw [← h2]
      · rw [if_neg hc] at h
        injection h with h2
        rw [← h2]

theorem buildMainMatcher_ok_wf {compile : CompileFn} {request : SearchRequest}
    {m : Option ExecFn} (hcw : CompileWF compile)
    (h : buildMainMatcher compile request = Except.ok m) :
    ∀ f, m = some f → ExecWF f := by
  unfold buildMainMatcher at h
  by_cases hc : (request.query.length != 0 && request.isRegex) = true
  · rw [if_pos hc] at h
    cases hcm : compile request.query (!request.matchCase) with
    | none =>
      simp only [hcm] at h
      exact absurd h (by simp)
    | some f0 =>
      simp only [hcm] at h
      injection h with h2
      intro f hf
      rw [← h2] at hf
      injection hf with hf2
      rw [← hf2]
      exact hcw _ _ _ hcm
  · rw [if_neg hc] at h
    injection h with h2
    intro f hf
    rw [← h2] at hf
    exact absurd hf (by simp)

theorem mkFindOptions_wf {compile : CompileFn} {request : SearchRequest}
    {mm : Option ExecFn × Option ExecFn} (hcw : CompileWF compile)
    (h : buildMatchers compile request = Except.ok mm) :
    OptionsWF (mkFindOptions request mm.1 mm.2) := by
  intro f hf
  exact buildMainMatcher_ok_wf hcw (buildMatchers_ok_main h) f hf

/-! ### Every candidate item is well formed -/

theorem workspace_items_itemInv {state : ServiceState} {o : FindMatchOptions}
    (hwf : OptionsWF o) :
    ∀ item ∈ (state.tabStore.map (fun kv => kv.2)).filterMap (fun tab =>
      let ms := findMatches tab.content o
      if ms.length == 0 then none
      else some { tabId := tab.id, title := tab.title,
                  filePath := tab.filePath, matches' := ms }),
      ItemInv item := by
  intro item hitem
  rcases List.mem_filterMap.mp hitem with ⟨tab, -, hf⟩
  simp only at hf
  by_cases hms : ((findMatches tab.content o).length == 0) = true
  · rw [if_pos hms] at hf
    exact absurd hf (by simp)
  · rw [if_neg hms] at hf
    injection hf with hf2
    refine findMatches_itemInv hwf tab.content item ?_
    rw [← hf2]

theorem candidateResults_itemInv {state : ServiceState} {request : SearchRequest}
    {o : FindMatchOptions} (hwf : OptionsWF o) (hcache : CacheInv state) :
    ∀ item ∈ candidateResults state request o, ItemInv item := by
  intro item hitem
  unfold candidateResults at hitem
  by_cases hq : (request.query.length == 0) = true
  · rw [if_pos hq] at hitem
    exact absurd hitem (by simp)
  · rw [if_neg hq] at hitem
    rcases hsc : request.scope with _ | sc
    · simp only [hsc] at hitem
      exact workspace_items_itemInv hwf item hitem
    · rcases sc with _ | sid
      · simp only [hsc] at hitem
        exact workspace_items_itemInv hwf item hitem
      · simp only [hsc] at hitem
        cases hbase : mapGet state.searchResultsStore sid with
        | none =>
          simp only [hbase] at hitem
          exact absurd hitem (by simp)
        | some base =>
          simp only [hbase] at hitem
          exact filterSearchResults_itemInv hwf (hcache sid base hbase) hitem

theorem cacheInv_of_reachable {compile : CompileFn} (hcw : CompileWF compile) :
    ∀ s, Reachable compile s → CacheInv s := by
  intro s hs
  induction hs with
  | init =>
    intro id r h
    simp [initialState, mapGet] at h
  | @perform s genId req payload s2 hreach hok ih =>
    intro id r hget
    obtain ⟨-, -, -, hss, mm, hbm, hpay⟩ := performSearch_ok_inv hok
    rw [hss] at hget
    by_cases hid : id = genId
    · subst hid
      rw [mapGet_mapSet_self] at hget
      injection hget with hr
      rw [← hr]
      intro item hitem
      rw [hpay] at hitem
      have hres : (payloadFor id (normalizeRequest req)
          (candidateResults s (normalizeRequest req)
            (mkFindOptions (normalizeRequest req) mm.1 mm.2))).results =
          candidateResults s (normalizeRequest req)
            (mkFindOptions (normalizeRequest req) mm.1 mm.2) := rfl
      rw [hres] at hitem
      exact candidateResults_itemInv (mkFindOptions_wf hcw hbm) ih item hitem
    · rw [mapGet_mapSet_other _ _ _ _ hid] at hget
      exact ih id r hget
  | sync tab hreach ih =>
    intro id r hget
    rw [syncTabState_store_eq] at hget
    exact ih id r hget
  | remove tabId hreach ih =>
    intro id r hget
    rw [removeTabState_store_eq] at hget
    exact ih id r hget
  | dispose searchId hreach ih =>
    intro id r hget
    by_cases hid : id = searchId
    · subst hid
      rw [show (disposeSearchResults _ id).searchResultsStore =
          mapDelete _ id from rfl, mapGet_mapDelete_self] at hget
      exact absurd hget (by simp)
    · rw [show (disposeSearchResults _ searchId).searchResultsStore =
          mapDelete _ searchId from rfl,
        mapGet_mapDelete_other _ _ _ hid] at hget
      exact ih id r hget
  | update fp c hreach ih =>
    intro id r hget
    rw [updateTab_store_eq] at hget
    exact ih id r hget

theorem aStarExec_wf : ExecWF aStarExec := by
  intro l s i n h
  unfold aStarExec at h
  by_cases hin : s ≤ l.length
  · rw [if_pos hin] at h
    injection h with h2
    have hi : s = i := congrArg Prod.fst h2
    have hn : aStarLen l s = n := congrArg Prod.snd h2
    have hlen : aStarLen l s ≤ l.length - s := by
      unfold aStarLen
      have happ := List.takeWhile_append_dropWhile
        (p := fun c => c == 'a') (l := l.drop s)
      calc ((l.drop s).takeWhile (fun c => c == 'a')).length
          ≤ ((l.drop s).takeWhile (fun c => c == 'a')).length +
            ((l.drop s).dropWhile (fun c => c == 'a')).length := Nat.le_add_right _ _
        _ = (l.drop s).length := by rw [← List.length_append, happ]
        _ = l.length - s := List.length_drop s l
    omega
  · rw [if_neg hin] at h
    exact absurd h (by simp)

theorem modelCompile_wf : CompileWF modelCompile := by
  intro p ci f h
  unfold modelCompile at h
  by_cases h1 : (p == ['(']) = true
  · rw [if_pos h1] at h
    exact absurd h (by simp)
  · rw [if_neg h1] at h
    by_cases h2 : (p == ['a', '*']) = true
    · rw [if_pos h2] at h
      injection h with h3
      rw [← h3]
      exact aStarExec_wf
    · rw [if_neg h2] at h
      injection h with h3
      rw [← h3]
      intro l s i n hx
      exact absurd hx (by simp)

/-- C9: in every state the service can reach, every cached response's
per-buffer matches are ordered by ascending line then ascending column,
and so are the matches of every response a successful performSearch
returns, workspace-scoped or refining. -/
theorem c9_matches_ordered (compile : CompileFn) (hcw : CompileWF compile) :
    ∀ s, Reachable compile s →
      (∀ id r, mapGet s.searchResultsStore id = some r →
        ∀ item ∈ r.results, SortedMatches item.matches') ∧
      (∀ genId raw payload s2,
        performSearch compile genId s raw = Except.ok (payload, s2) →
        ∀ item ∈ payload.results, SortedMatches item.matches') := by
  intro s hs
  have hc := cacheInv_of_reachable hcw s hs
  constructor
  · intro id r hget item hitem
    exact (hc id r hget item hitem).1
  · intro genId raw payload s2 hok item hitem
    have hs2 : Reachable compile s2 := Reachable.perform hs hok
    have hc2 := cacheInv_of_reachable hcw s2 hs2
    obtain ⟨hsid, -, -, hss, -⟩ := performSearch_ok_inv hok
    have hget : mapGet s2.searchResultsStore genId = some payload := by
      rw [hss]
      exact mapGet_mapSet_self _ _ _
    exact (hc2 genId payload hget item hitem).1

/-- Witness for C9 at a concrete state: the empty initial state under the
model engine. -/
theorem c9_matches_ordered_witness :
    (∀ id r, mapGet initialState.searchResultsStore id = some r →
      ∀ item ∈ r.results, SortedMatches item.matches') ∧
    (∀ genId raw payload s2,
      performSearch modelCompile genId initialState raw = Except.ok (payload, s2) →
      ∀ item ∈ payload.results, SortedMatches item.matches') :=
  c9_matches_ordered modelCompile modelCompile_wf initialState Reachable.init

/-! ### Exclusion correctness -/

theorem findMatches_not_excluded {content : Text} {o : FindMatchOptions} :
    ∀ m ∈ findMatches content o, shouldExcludeLine o m.preview = false := by
  intro m hm
  unfold findMatches at hm
  rcases List.mem_flatMap.mp hm with ⟨pr, -, hmem⟩
  have hprev := (lineMatches_line_preview m hmem).2
  rw [hprev]
  exact lineMatches_not_excluded m hmem

theorem workspace_items_not_excluded {state : ServiceState} {o : FindMatchOptions} :
    ∀ item ∈ (state.tabStore.map (fun kv => kv.2)).filterMap (fun tab =>
      let ms := findMatches tab.content o
      if ms.length == 0 then none
      else some ({ tabId := tab.id, title := tab.title,
                   filePath := tab.filePath, matches' := ms } : SearchResponseItem)),
      ∀ m ∈ item.matches', shouldExcludeLine o m.preview = false := by
  intro item hitem m hm
  rcases List.mem_filterMap.mp hitem with ⟨tab, -, hf⟩
  simp only at hf
  by_cases hms : ((findMatches tab.content o).length == 0) = true
  · rw [if_pos hms] at hf
    exact absurd hf (by simp)
  · rw [if_neg hms] at hf
    injection hf with hf2
    have hmm2 : item.matches' = findMatches tab.content o := by rw [← hf2]
    rw [hmm2] at hm
    exact findMatches_not_excluded m hm

/-- C6: for every reachable state and every successful request carrying a
non-empty exclude query, no returned match's preview line satisfies the
exclusion predicate the scanner uses — an excluded line contributes no
match records at all, in workspace scans and in refinements alike. -/
theorem c6_exclusion_no_excluded_line (compile : CompileFn) (hcw : CompileWF compile) :
    ∀ s, Reachable compile s →
    ∀ genId raw payload s2 mm,
      performSearch compile genId s raw = Except.ok (payload, s2) →
      buildMatchers compile (normalizeRequest raw) = Except.ok mm →
      (normalizeRequest raw).excludeQuery ≠ none →
      ∀ item ∈ payload.results, ∀ m ∈ item.matches',
        shouldExcludeLine (mkFindOptions (normalizeRequest raw) mm.1 mm.2)
          m.preview = false := by
  intro s hs genId raw payload s2 mm hok hbm hexq item hitem m hm
  obtain ⟨-, -, -, -, mm2, hbm2, hpay⟩ := performSearch_ok_inv hok
  rw [hbm] at hbm2
  injection hbm2 with hmmeq
  subst hmmeq
  rw [hpay] at hitem
  have hres : (payloadFor genId (normalizeRequest raw)
      (candidateResults s (normalizeRequest raw)
        (mkFindOptions (normalizeRequest raw) mm.1 mm.2))).results =
      candidateResults s (normalizeRequest raw)
        (mkFindOptions (normalizeRequest raw) mm.1 mm.2) := rfl
  rw [hres] at hitem
  unfold candidateResults at hitem
  by_cases hq : ((normalizeRequest raw).query.length == 0) = true
  · rw [if_pos hq] at hitem
    exact absurd hitem (by simp)
  · rw [if_neg hq] at hitem
    rcases hsc : (normalizeRequest raw).scope with _ | sc
    · simp only [hsc] at hitem
      exact workspace_items_not_excluded item hitem m hm
    · rcases sc with _ | sid
      · simp only [hsc] at hitem
        exact workspace_items_not_excluded item hitem m hm
      · simp only [hsc] at hitem
        cases hbase : mapGet s.searchResultsStore sid with
        | none =>
          simp only [hbase] at hitem
          exact absurd hitem (by simp)
        | some base =>
          simp only [hbase] at hitem
          have hbinv := cacheInv_of_reachable hcw s hs sid base hbase
          obtain ⟨-, src, hsrc, -, -, -, hmsrc, -⟩ := mem_filterSearchResults hitem
          rw [hmsrc, aggregateAux_eq_dedupe] at hm
          rcases List.mem_flatMap.mp hm with ⟨pm, hpm, hmem⟩
          have hpmm : pm ∈ src.matches' := (dedupeScan_sublist _ _).mem hpm
          have hsingle : SingleLineText pm.preview := (hbinv src hsrc).2.1 pm hpmm
          obtain ⟨-, hp⟩ := expandMatch_line_preview m hmem
          rw [hp]
          unfold expandMatch at hmem
          rcases List.mem_map.mp hmem with ⟨nested, hnested, -⟩
          rw [findMatches_single_line hsingle] at hnested
          exact lineMatches_not_excluded nested hnested

/-- Witness for C6 at a concrete input: the literal search for foo
excluding bar over the synced two-line buffer. -/
theorem c6_exclusion_no_excluded_line_witness :
    ∃ payload : SearchResponsePayload, ∃ s2 : ServiceState,
    ∃ mm : Option ExecFn × Option ExecFn,
      performSearch modelCompile "w6" exState exExcludeRequest =
        Except.ok (payload, s2) ∧
      buildMatchers modelCompile (normalizeRequest exExcludeRequest) = Except.ok mm ∧
      ∀ item ∈ payload.results, ∀ m ∈ item.matches',
        shouldExcludeLine (mkFindOptions (normalizeRequest exExcludeRequest) mm.1 mm.2)
          m.preview = false :=
  ⟨_, _, _, rfl, rfl,
    c6_exclusion_no_excluded_line modelCompile modelCompile_wf exState
      (Reachable.sync exTab Reachable.init) "w6" exExcludeRequest _ _ _
      rfl rfl (by decide)⟩
